import Mathlib

/-!
Verification of the simp-lee/logger repository.

This development shallowly embeds the repository's rotating file writer
(`rotating_writer.go`), fan-out handler (`multi_handler.go`) and custom
formatter (`custom_handler.go`) as executable Lean definitions, and proves
or refutes the frozen specification claims about them.

Conventions used throughout:
* Go strings are modelled as `List Char` (`GoStr`); the helpers `goStartsWith`,
  `goTrimEnd`, `occursIn`, `goReplaceAll`, `filepathExt` mirror
  `strings.HasPrefix`, `strings.TrimSuffix`, `strings.Contains`,
  `strings.ReplaceAll` and `filepath.Ext` from the Go standard library
  (for the arguments the repository actually passes: path names without
  separators, non-empty patterns).
* Machine integers are modelled as `Int`/`Nat` (no overflow is relevant:
  sizes and counters stay far below 2^63 in every claim considered).
* Instants (`time.Time`) are modelled as abstract integers ordered by
  `<`; `t.AddDate(0, 0, -d)` is modelled as subtraction of `d` in day
  units, which preserves the ordering facts the claims are about.
-/

set_option maxRecDepth 4000
set_option linter.unnecessarySimpa false

/-- GoStr models a Go string as its list of characters. -/
abbrev GoStr := List Char

/-- Go strings.HasPrefix(s, p). -/
def goStartsWith (s p : GoStr) : Bool :=
  p.isPrefixOf s

/-- Go strings.HasSuffix(s, p). -/
def goEndsWith (s p : GoStr) : Bool :=
  p.isSuffixOf s

/-- Go strings.TrimSuffix(s, suf): drops one trailing copy of suf when present. -/
def goTrimEnd (s suf : GoStr) : GoStr :=
  if goEndsWith s suf then s.take (s.length - suf.length) else s

/-- Go strings.Contains(s, pat), written with the pattern first. -/
def occursIn (pat : GoStr) : GoStr → Bool
  | [] => pat.isEmpty
  | c :: t => pat.isPrefixOf (c :: t) || occursIn pat t

/-- Core of strings.ReplaceAll for a non-empty pattern: scans left to right,
replacing non-overlapping occurrences.  `fuel` bounds recursion depth; the
wrapper always supplies `s.length`, which is sufficient. -/
def replaceFuel : Nat → GoStr → GoStr → GoStr → GoStr
  | 0, s, _, _ => s
  | _ + 1, [], _, _ => []
  | fuel + 1, c :: t, pat, rep =>
    if pat ≠ [] ∧ pat.isPrefixOf (c :: t) then
      rep ++ replaceFuel fuel ((c :: t).drop pat.length) pat rep
    else
      c :: replaceFuel fuel t pat rep

/-- Go strings.ReplaceAll(s, pat, rep).  For the empty pattern Go inserts
`rep` before every character and at the end; the repository only ever
replaces the non-empty placeholder patterns. -/
def goReplaceAll (s pat rep : GoStr) : GoStr :=
  if pat = [] then rep ++ s.flatMap (fun c => c :: rep)
  else replaceFuel s.length s pat rep

/-- Go filepath.Ext(name): scans backwards from the end for a dot, stopping
at a path separator; returns the suffix from that dot (inclusive), or the
empty string when no dot is found. -/
def filepathExt (name : GoStr) : GoStr :=
  let r := name.reverse
  let pre := r.takeWhile (fun c => !(c == '.' || c == '/'))
  match r.drop pre.length with
  | '.' :: _ => '.' :: pre.reverse
  | _ => []

/-- Decimal digit character, as produced by Go integer formatting. -/
def digitChar (d : Nat) : Char :=
  Char.ofNat (48 + d)

/-- Decimal rendering of a natural number with explicit fuel (the wrapper
supplies the number itself, which dominates the digit count). -/
def natToStrF : Nat → Nat → GoStr
  | 0, n => [digitChar (n % 10)]
  | f + 1, n =>
    if n < 10 then [digitChar n]
    else natToStrF f (n / 10) ++ [digitChar (n % 10)]

/-- Decimal rendering of a natural number, as Go fmt with verb d prints it. -/
def natToStr (n : Nat) : GoStr :=
  natToStrF n n

/-- Decimal decoding, used only to prove that rendering is injective. -/
def strToNat (s : GoStr) : Nat :=
  s.foldl (fun a c => a * 10 + (c.toNat - 48)) 0

/-- Zero padding to a fixed width, as Go time formatting pads date fields. -/
def padZero (w : Nat) (s : GoStr) : GoStr :=
  List.replicate (w - s.length) '0' ++ s

/-- A wall-clock timestamp broken into calendar fields, standing for the
`time.Time` value observed by `rotate`. -/
structure Timestamp where
  year : Nat
  month : Nat
  day : Nat
  hour : Nat
  minute : Nat
  second : Nat
  milli : Nat
deriving DecidableEq

/-- Go layout "20060102.150405.000" applied to a timestamp:
`YYYYMMDD.HHMMSS.mmm`. -/
def formatStamp (t : Timestamp) : GoStr :=
  padZero 4 (natToStr t.year) ++ padZero 2 (natToStr t.month) ++
    padZero 2 (natToStr t.day) ++ ['.'] ++
    padZero 2 (natToStr t.hour) ++ padZero 2 (natToStr t.minute) ++
    padZero 2 (natToStr t.second) ++ ['.'] ++
    padZero 3 (natToStr t.milli)

/-- Fuel-bounded linear scan for the first counter whose candidate name is
not taken, mirroring the for/os.Stat loop in `rotate`. -/
def searchFresh (taken : List GoStr) (mk : Nat → GoStr) : Nat → Nat → Nat
  | c, 0 => c
  | c, fuel + 1 => if mk c ∈ taken then searchFresh taken mk (c + 1) fuel else c


/-- rotatingConfig mirrors the struct of the same name in rotating_writer.go.
The directory field is not represented: every operation below happens inside
the one configured directory, so a bare file name stands for
filepath.Join(directory, name). -/
structure rotatingConfig where
  fileName : GoStr
  maxSizeMB : Int
  retentionDays : Int
deriving DecidableEq

/-- A directory, as an association list from file name to file content. -/
abbrev DirFS := List (GoStr × GoStr)

/-- Content of a named file, or none when no such file exists. -/
def fsLookup : DirFS → GoStr → Option GoStr
  | [], _ => none
  | (n, c) :: t, name => if n = name then some c else fsLookup t name

/-- The names present in the directory. -/
def fsNames (fs : DirFS) : List GoStr :=
  fs.map Prod.fst

/-- Write `content` to `name`: overwrite the existing entry, or create one. -/
def fsSet : DirFS → GoStr → GoStr → DirFS
  | [], name, content => [(name, content)]
  | (n, c) :: t, name, content =>
    if n = name then (n, content) :: t else (n, c) :: fsSet t name content

/-- Delete the entry called `name`, if present. -/
def fsDelete : DirFS → GoStr → DirFS
  | [], _ => []
  | (n, c) :: t, name => if n = name then t else (n, c) :: fsDelete t name

/-- State of one rotatingWriter together with the directory it owns.
`chanClosed`/`chanFull` model the capacity-1 rotateSignal channel; `panicked`
records whether a send on the closed channel (a Go run-time panic) happened.
All four operations below execute under the writer mutex, so a concurrent
execution of the writer is a linearization: some sequence of these atomic
steps (see `runTrace`). -/
structure WState where
  fs : DirFS
  closed : Bool
  chanClosed : Bool
  chanFull : Bool
  panicked : Bool
deriving DecidableEq

/-- State right after newRotatingWriter: open flag clear, empty channel. -/
def newWriterState (fs : DirFS) : WState :=
  { fs := fs, closed := false, chanClosed := false, chanFull := false,
    panicked := false }

/-- Error text returned by Write on a closed writer. -/
def wErrClosed : GoStr :=
  ("writer has been closed").toList

/-- The base of the configured file name with its extension trimmed, the
prefix used both by rotated-name generation and by cleanup matching. -/
def rotBase (cfg : rotatingConfig) : GoStr :=
  goTrimEnd cfg.fileName (filepathExt cfg.fileName)

/-- Candidate rotated name for collision counter `c`: for counter 0 the name
is base.timestamp.ext, afterwards base.timestamp.c.ext, exactly as the two
Sprintf calls in rotate build them. -/
def rotCandName (cfg : rotatingConfig) (t : Timestamp) (c : Nat) : GoStr :=
  if c = 0 then
    rotBase cfg ++ ['.'] ++ formatStamp t ++ filepathExt cfg.fileName
  else
    rotBase cfg ++ ['.'] ++ formatStamp t ++ ['.'] ++ natToStr c ++
      filepathExt cfg.fileName

/-- The collision counter rotate ends up with: the first counter from 0 whose
candidate name does not exist.  Fuel |names| + 1 always suffices because the
candidate names are pairwise distinct. -/
def rotateCounter (cfg : rotatingConfig) (t : Timestamp) (names : List GoStr) : Nat :=
  searchFresh names (rotCandName cfg t) 0 (names.length + 1)

/-- The rotated-file name chosen by rotate. -/
def rotateName (cfg : rotatingConfig) (t : Timestamp) (names : List GoStr) : GoStr :=
  rotCandName cfg t (rotateCounter cfg t names)

/-- One rotate() call under the writer mutex: return success when the live
file does not exist; otherwise rename it to the first free timestamped
candidate name.  (rotate does not recreate the live file; the next Write
recreates it through O_CREATE.) -/
def rotateOp (cfg : rotatingConfig) (t : Timestamp) (s : WState) :
    WState × Option GoStr :=
  match fsLookup s.fs cfg.fileName with
  | none => (s, none)
  | some content =>
    let nm := rotateName cfg t (fsNames s.fs)
    ({ s with fs := fsSet (fsDelete s.fs cfg.fileName) nm content }, none)

/-- One Write(p) call under the writer mutex: fail if closed; otherwise open
or create the live file, stat it, append p, and when rotation is enabled and
the stat size plus the written length exceeds the threshold, do a
non-blocking send on the capacity-1 rotateSignal channel.  A send on the
closed channel would be a Go panic, recorded in `panicked`. -/
def writeOp (cfg : rotatingConfig) (p : GoStr) (s : WState) :
    WState × Nat × Option GoStr :=
  if s.closed then (s, 0, some wErrClosed)
  else
    let old := (fsLookup s.fs cfg.fileName).getD []
    let fs' := fsSet s.fs cfg.fileName (old ++ p)
    if cfg.maxSizeMB > 0 ∧
        ((old.length : Int) + p.length > cfg.maxSizeMB * 1024 * 1024) ∧
        s.closed = false then
      if s.chanClosed then ({ s with fs := fs', panicked := true }, p.length, none)
      else if s.chanFull then ({ s with fs := fs' }, p.length, none)
      else ({ s with fs := fs', chanFull := true }, p.length, none)
    else ({ s with fs := fs' }, p.length, none)

/-- One Close() call under the writer mutex: a no-op when already closed;
otherwise set the closed flag, stop the timer, and close the signal channel. -/
def closeOp (s : WState) : WState × Option GoStr :=
  if s.closed then (s, none)
  else ({ s with closed := true, chanClosed := true }, none)

/-- One turn of the rotateMonitor goroutine: when a rotation request is
pending in the channel, consume it and call rotate; otherwise nothing
observable happens. -/
def mrotateOp (cfg : rotatingConfig) (t : Timestamp) (s : WState) :
    WState × Option GoStr :=
  if s.chanFull then rotateOp cfg t { s with chanFull := false } else (s, none)

/-- The mutex-atomic operations of the writer system, in the order some
linearization schedules them: caller writes and closes, and monitor turns. -/
inductive WOp where
  | write (p : GoStr)
  | mrotate (t : Timestamp)
  | closeW
deriving DecidableEq

/-- The visible result of one operation. -/
inductive WRes where
  | wrote (n : Nat) (err : Option GoStr)
  | rotated (err : Option GoStr)
  | closedRes (err : Option GoStr)
deriving DecidableEq

/-- One scheduled operation. -/
def stepW (cfg : rotatingConfig) (s : WState) : WOp → WState × WRes
  | .write p =>
    let r := writeOp cfg p s
    (r.1, .wrote r.2.1 r.2.2)
  | .mrotate t =>
    let r := mrotateOp cfg t s
    (r.1, .rotated r.2)
  | .closeW =>
    let r := closeOp s
    (r.1, .closedRes r.2)

/-- A whole schedule of operations, with the result of each. -/
def runTrace (cfg : rotatingConfig) : WState → List WOp → WState × List WRes
  | s, [] => (s, [])
  | s, op :: ops =>
    let r := stepW cfg s op
    let rest := runTrace cfg r.1 ops
    (rest.1, r.2 :: rest.2)

/-- A directory entry as seen by cleanOldLogs: name, directory flag,
modification time, and whether the two I/O calls made on it (entry.Info and
os.Remove) succeed. -/
structure DirEntry where
  name : GoStr
  isDir : Bool
  modTime : Int
  infoOk : Bool
  removeOk : Bool
deriving DecidableEq

/-- The isRotatedLog test of cleanOldLogs: the entry name starts with the
live file's base name (extension trimmed) and is not the live file itself. -/
def isRotatedLog (cfg : rotatingConfig) (name : GoStr) : Bool :=
  goStartsWith name (goTrimEnd cfg.fileName (filepathExt cfg.fileName)) &&
    !(name == cfg.fileName)

/-- Per-entry outcome of the cleanup loop of cleanOldLogs. -/
inductive CleanAction where
  | skippedDir
  | skippedName
  | statFailed
  | removed
  | removeFailed
  | retained
deriving DecidableEq

/-- The cutoff used by cleanOldLogs: now minus retentionDays (AddDate at day
granularity over abstract day-valued instants). -/
def cleanCutoff (cfg : rotatingConfig) (now : Int) : Int :=
  now - cfg.retentionDays

/-- What the cleanup loop does with one entry, following the branch order of
the Go loop body. -/
def cleanDecision (cfg : rotatingConfig) (cutoff : Int) (e : DirEntry) :
    CleanAction :=
  if e.isDir then .skippedDir
  else if !(isRotatedLog cfg e.name) then .skippedName
  else if !e.infoOk then .statFailed
  else if e.modTime < cutoff then
    (if e.removeOk then .removed else .removeFailed)
  else .retained

/-- Names actually deleted by one full (uncancelled) cleanup pass. -/
def cleanRemovedNames (cfg : rotatingConfig) (now : Int)
    (entries : List DirEntry) : List GoStr :=
  (entries.filter
      (fun e => decide (cleanDecision cfg (cleanCutoff cfg now) e = .removed))).map
    DirEntry.name

/-- Events of one cleanOldLogs invocation, in program order: the writer-mutex
operations, the directory I/O calls, and the slog diagnostic records. -/
inductive CEvent where
  | lockAcq
  | lockRel
  | readDirEv
  | statEv (name : GoStr)
  | removeEv (name : GoStr)
  | diagEv (msg : GoStr)
deriving DecidableEq

/-- Message of the slog.Warn issued when os.ReadDir fails. -/
def msgReadDirErr : GoStr := ("Error reading directory").toList

/-- Message of the slog.Warn issued when the context is cancelled mid-scan. -/
def msgCancelled : GoStr := ("Log cleanup cancelled").toList

/-- Message of the slog.Warn issued when entry.Info fails. -/
def msgInfoErr : GoStr := ("Error getting file info").toList

/-- Message of the slog.Warn issued when os.Remove fails. -/
def msgRemoveErr : GoStr := ("Error removing old log file").toList

/-- Message of the closing slog.Info record. -/
def msgDone : GoStr := ("Log cleanup completed").toList

/-- Events of the per-entry loop; `cancelled i` says whether ctx.Done() is
already closed when entry number `i` is examined.  The trailing lockRel in
each return path is the deferred mutex Unlock. -/
def cleanLoopEvents (cfg : rotatingConfig) (cutoff : Int)
    (cancelled : Nat → Bool) : Nat → List DirEntry → List CEvent
  | _, [] => [.diagEv msgDone, .lockRel]
  | i, e :: rest =>
    if cancelled i then [.diagEv msgCancelled, .lockRel]
    else if e.isDir then cleanLoopEvents cfg cutoff cancelled (i + 1) rest
    else if !(isRotatedLog cfg e.name) then
      cleanLoopEvents cfg cutoff cancelled (i + 1) rest
    else
      .statEv e.name ::
        (if !e.infoOk then
          .diagEv msgInfoErr :: cleanLoopEvents cfg cutoff cancelled (i + 1) rest
        else if e.modTime < cutoff then
          .removeEv e.name ::
            ((if e.removeOk then [] else [.diagEv msgRemoveErr]) ++
              cleanLoopEvents cfg cutoff cancelled (i + 1) rest)
        else cleanLoopEvents cfg cutoff cancelled (i + 1) rest)

/-- Full event trace of cleanOldLogs as written in rotating_writer.go: the
mutex is acquired on entry and released (by defer) only at return, so every
other event sits between lockAcq and lockRel. -/
def cleanEvents (cfg : rotatingConfig) (now : Int) (dirOk : Bool)
    (entries : List DirEntry) (cancelled : Nat → Bool) : List CEvent :=
  .lockAcq :: .readDirEv ::
    (if !dirOk then [.diagEv msgReadDirErr, .lockRel]
     else cleanLoopEvents cfg (cleanCutoff cfg now) cancelled 0 entries)

/-- Whether the writer mutex is held while the event at position `i` runs:
more acquisitions than releases strictly before it. -/
def lockHeldAt (tr : List CEvent) (i : Nat) : Bool :=
  decide (((tr.take i).filter (fun e => decide (e = CEvent.lockAcq))).length >
    ((tr.take i).filter (fun e => decide (e = CEvent.lockRel))).length)


/-- First index of `pat` in `s`, or -1, as Go strings.Index computes it;
customHandler stores the result for the attrs placeholder in `attrsIndex`. -/
def goIndexOf : GoStr → GoStr → Int
  | [], pat => if pat.isEmpty then 0 else -1
  | c :: t, pat =>
    if pat.isPrefixOf (c :: t) then 0
    else
      let r := goIndexOf t pat
      if r < 0 then -1 else r + 1

/-- Go strings.Join(gs, "."). -/
def joinDots : List GoStr → GoStr
  | [] => []
  | [g] => g
  | g :: gs => g ++ ['.'] ++ joinDots gs

/-- Go filepath.Base for the non-empty separator-free tails produced by the
runtime frame data: the part after the last slash, or dot for empty input. -/
def goBase (s : GoStr) : GoStr :=
  if s = [] then ['.']
  else (s.reverse.takeWhile (fun c => !(c == '/'))).reverse

/-- The placeholder constants of custom_handler.go. -/
def phTime : GoStr := ("{time}").toList

/-- The level placeholder. -/
def phLevel : GoStr := ("{level}").toList

/-- The message placeholder. -/
def phMessage : GoStr := ("{message}").toList

/-- The source-location placeholder. -/
def phFile : GoStr := ("{file}").toList

/-- The attributes-block placeholder. -/
def phAttrs : GoStr := ("{attrs}").toList

/-- DefaultFormatter from config.go. -/
def defaultFormatter : GoStr :=
  ("{time} {level} {message} {file} {attrs}").toList

/-- ANSI reset. -/
def ansiReset : GoStr := ("\x1b[0m").toList

/-- ANSI faint. -/
def ansiFaint : GoStr := ("\x1b[2m").toList

/-- ANSI bright cyan. -/
def ansiBrightCyan : GoStr := ("\x1b[96m").toList

/-- ANSI bright red. -/
def ansiBrightRed : GoStr := ("\x1b[91m").toList

/-- ANSI bright red, faint. -/
def ansiBrightRedFaint : GoStr := ("\x1b[91;2m").toList

/-- ANSI bright green. -/
def ansiBrightGreen : GoStr := ("\x1b[92m").toList

/-- ANSI bright yellow. -/
def ansiBrightYellow : GoStr := ("\x1b[93m").toList

/-- ANSI bright magenta. -/
def ansiBrightMagenta : GoStr := ("\x1b[95m").toList

/-- Sign-forcing decimal rendering of a non-zero integer, Go fmt verb +d. -/
def intPlusStr (v : Int) : GoStr :=
  if v < 0 then '-' :: natToStr v.natAbs else '+' :: natToStr v.natAbs

/-- slog.Level.String(): the nearest level name below, plus a signed offset
when not exact (DEBUG = -4, INFO = 0, WARN = 4, ERROR = 8). -/
def levelStrGo (l : Int) : GoStr :=
  let str := fun (base : GoStr) (v : Int) =>
    if v = 0 then base else base ++ intPlusStr v
  if l < 0 then str (("DEBUG").toList) (l + 4)
  else if l < 4 then str (("INFO").toList) l
  else if l < 8 then str (("WARN").toList) (l - 4)
  else str (("ERROR").toList) (l - 8)

/-- The value carried by a slog.Attr, restricted to the shapes the formatter
distinguishes.  A time value carries its already-rendered text (the model of
`t.In(timeZone).Format(timeFormat)`); a source value carries the frame data;
anyV covers every other value, carrying its fmt verb-v rendering. -/
inductive AVal where
  | timeV (s : GoStr)
  | levelV (l : Int)
  | strV (s : GoStr)
  | srcV (file fn : GoStr) (line : Nat)
  | anyV (s : GoStr)
deriving DecidableEq

/-- A slog.Attr. -/
structure SAttr where
  key : GoStr
  val : AVal
deriving DecidableEq

/-- The zero slog.Attr, which a ReplaceAttr hook returns to delete a field. -/
def emptyAttr : SAttr :=
  { key := [], val := .anyV [] }

/-- Go fmt verb-v rendering of an attribute value. -/
def fmtAnyVal : AVal → GoStr
  | .timeV s => s
  | .levelV l => levelStrGo l
  | .strV s => s
  | .srcV f fn ln =>
    [Char.ofNat 38, Char.ofNat 123] ++ fn ++ [' '] ++ f ++ [' '] ++
      natToStr ln ++ [Char.ofNat 125]
  | .anyV s => s

/-- slog.Value.String(): the string itself for string values, the textual
rendering otherwise. -/
def valString : AVal → GoStr
  | .strV s => s
  | v => fmtAnyVal v

/-- The immutable handlerConfig snapshot of custom_handler.go, published via
atomic.Value.  globalCfg's TimeZone/TimeFormat are absorbed into the
pre-rendered record time; outputCfg is represented by its two observations
GetColor and GetFormatter. -/
structure HandlerCfg where
  colorEnabled : Bool
  formatterStr : GoStr
  attrsIndex : Int
  groups : List GoStr
  attrs : List SAttr
  optsLevel : Int
  addSource : Bool
  rep : Option (List GoStr → SAttr → SAttr)

/-- The snapshot newCustomHandler builds: empty formatter falls back to
DefaultFormatter, attrsIndex caches strings.Index(formatter, attrs
placeholder), groups and attrs start empty. -/
def newHandlerCfg (color : Bool) (fmtStr : GoStr) (lvl : Int) (addSrc : Bool)
    (rep : Option (List GoStr → SAttr → SAttr)) : HandlerCfg :=
  let f := if fmtStr = [] then defaultFormatter else fmtStr
  { colorEnabled := color, formatterStr := f, attrsIndex := goIndexOf f phAttrs,
    groups := [], attrs := [], optsLevel := lvl, addSource := addSrc, rep := rep }

/-- customHandler.Enabled: at or above the snapshot threshold. -/
def handlerEnabled (cfg : HandlerCfg) (level : Int) : Bool :=
  decide (level ≥ cfg.optsLevel)

/-- A log record at the point Handle receives it.  `timeStr` is the record
time rendered in the configured zone and layout, none for the zero time;
pcZero mirrors r.PC == 0. -/
structure LogRecord where
  timeStr : Option GoStr
  level : Int
  message : GoStr
  pcZero : Bool
  srcFile : GoStr
  srcFn : GoStr
  srcLine : Nat
  attrs : List SAttr
deriving DecidableEq

/-- Apply the optional ReplaceAttr hook. -/
def applyRep (rep : Option (List GoStr → SAttr → SAttr)) (groups : List GoStr)
    (a : SAttr) : SAttr :=
  match rep with
  | none => a
  | some f => f groups a

/-- customHandler.colorize. -/
def colorize (cfg : HandlerCfg) (s color : GoStr) : GoStr :=
  if !cfg.colorEnabled then s else color ++ s ++ ansiReset

/-- customHandler.colorizeLevel. -/
def colorizeLevel (cfg : HandlerCfg) (level : Int) : GoStr :=
  let color :=
    if level ≤ -4 then ansiBrightCyan
    else if level ≤ 0 then ansiBrightGreen
    else if level ≤ 4 then ansiBrightYellow
    else if level ≤ 8 then ansiBrightRed
    else ansiBrightMagenta
  colorize cfg (levelStrGo level) color

/-- customHandler.colorizeMessage. -/
def colorizeMessage (cfg : HandlerCfg) (msg : GoStr) (level : Int) : GoStr :=
  if level ≥ 8 then colorize cfg msg ansiBrightRed else msg

/-- The time placeholder value: empty for the zero time, otherwise the
ReplaceAttr-processed time, formatted when still a time and rendered with
verb v when the hook changed its type; deleted attrs yield the empty string. -/
def builtinTimeStr (cfg : HandlerCfg) (r : LogRecord) : GoStr :=
  match r.timeStr with
  | none => []
  | some s =>
    let ta := applyRep cfg.rep [] { key := ("time").toList, val := .timeV s }
    if ta = emptyAttr then []
    else
      match ta.val with
      | .timeV s2 => colorize cfg s2 ansiFaint
      | v => colorize cfg (fmtAnyVal v) ansiFaint

/-- The level placeholder value. -/
def builtinLevelStr (cfg : HandlerCfg) (r : LogRecord) : GoStr :=
  let la := applyRep cfg.rep [] { key := ("level").toList, val := .levelV r.level }
  if la = emptyAttr then []
  else
    match la.val with
    | .levelV l => colorizeLevel cfg l
    | v => colorize cfg (fmtAnyVal v) ansiBrightGreen

/-- The message placeholder value. -/
def builtinMsgStr (cfg : HandlerCfg) (r : LogRecord) : GoStr :=
  let ma := applyRep cfg.rep [] { key := ("msg").toList, val := .strV r.message }
  if ma = emptyAttr then []
  else colorizeMessage cfg (valString ma.val) r.level

/-- The source-location placeholder value: built only under AddSource, with
an empty Source for a zero PC, passed through ReplaceAttr, and rendered
file:function:line through filepath.Base when the file is known. -/
def builtinFileStr (cfg : HandlerCfg) (r : LogRecord) : GoStr :=
  if !cfg.addSource then []
  else
    let src : AVal :=
      if r.pcZero then .srcV [] [] 0 else .srcV r.srcFile r.srcFn r.srcLine
    let sa := applyRep cfg.rep [] { key := ("source").toList, val := src }
    if sa = emptyAttr then []
    else
      match sa.val with
      | .srcV f fn ln =>
        if f ≠ [] then
          colorize cfg (goBase f ++ [':'] ++ goBase fn ++ [':'] ++ natToStr ln)
            ansiFaint
        else []
      | v => colorize cfg (fmtAnyVal v) ansiFaint

/-- customHandler.appendColorizedAttr: nothing for a deleted attr, otherwise
a leading space when not first, the group-dot-prefixed key, and the value,
with the error-at-error-level color special case. -/
def attrChunk (cfg : HandlerCfg) (a : SAttr) (level : Int) (isFirst : Bool) :
    GoStr :=
  if a = emptyAttr then []
  else
    let key :=
      if cfg.groups ≠ [] then joinDots cfg.groups ++ ['.'] ++ a.key else a.key
    (if !isFirst then [' '] else []) ++
      (if level ≥ 8 ∧ a.key = ("error").toList then
        colorize cfg key ansiBrightRedFaint ++
          colorize cfg ['='] ansiBrightRedFaint ++
          colorize cfg (fmtAnyVal a.val) ansiBrightRed
      else
        colorize cfg key ansiFaint ++ colorize cfg ['='] ansiFaint ++
          fmtAnyVal a.val)

/-- The r.Attrs loop of formatLogLine: ReplaceAttr with the current groups,
then appendColorizedAttr; the isFirst flag flips after every attr, deleted
or not, exactly as in the Go callback. -/
def attrsRender (cfg : HandlerCfg) (level : Int) : Bool → List SAttr → GoStr
  | _, [] => []
  | isFirst, a :: rest =>
    attrChunk cfg (applyRep cfg.rep cfg.groups a) level isFirst ++
      attrsRender cfg level false rest

/-- The attrs placeholder value: rendered only when the template mentions
the attrs placeholder (cached index non-negative). -/
def builtinAttrsStr (cfg : HandlerCfg) (r : LogRecord) : GoStr :=
  if cfg.attrsIndex ≥ 0 then attrsRender cfg r.level true r.attrs else []

/-- customHandler.removeEmptyPlaceholder: try space-placeholder-space to one
space, then space-placeholder, placeholder-space and bare placeholder to
nothing; only the first pattern actually contained in the line is replaced. -/
def removeEmptyPlaceholder (s ph : GoStr) : GoStr :=
  let p1 := [' '] ++ ph ++ [' ']
  let p2 := [' '] ++ ph
  let p3 := ph ++ [' ']
  if occursIn p1 s then goReplaceAll s p1 [' ']
  else if occursIn p2 s then goReplaceAll s p2 []
  else if occursIn p3 s then goReplaceAll s p3 []
  else if occursIn ph s then goReplaceAll s ph []
  else s

/-- customHandler.formatLogLine: build the five placeholder values, then
substitute them into the template.  Time, level and message are replaced
unconditionally; the file and attrs placeholders go through
removeEmptyPlaceholder when their value is empty.  A newline is appended. -/
def formatLogLine (cfg : HandlerCfg) (r : LogRecord) : GoStr :=
  let timeStr := builtinTimeStr cfg r
  let levelStr := builtinLevelStr cfg r
  let msgStr := builtinMsgStr cfg r
  let fileStr := builtinFileStr cfg r
  let attrsStr := builtinAttrsStr cfg r
  let l1 := goReplaceAll cfg.formatterStr phTime timeStr
  let l2 := goReplaceAll l1 phLevel levelStr
  let l3 := goReplaceAll l2 phMessage msgStr
  let l4 :=
    if fileStr ≠ [] then goReplaceAll l3 phFile fileStr
    else removeEmptyPlaceholder l3 phFile
  let l5 :=
    if attrsStr ≠ [] then goReplaceAll l4 phAttrs attrsStr
    else removeEmptyPlaceholder l4 phAttrs
  l5 ++ ['\n']

/-- customHandler.Handle up to the sink write: the snapshot attrs are added
to the record, then the line is formatted. -/
def handleLine (cfg : HandlerCfg) (r : LogRecord) : GoStr :=
  formatLogLine cfg { r with attrs := r.attrs ++ cfg.attrs }

/-- A heap of customHandler instances: Go pointers become indices into this
allocation list, and allocating a new handler appends to it.  WithAttrs and
WithGroup act on the store so that instance identity (same pointer versus
brand-new instance) and frame effects on other instances are observable. -/
structure HStore where
  configs : List HandlerCfg

/-- The snapshot WithAttrs builds: every field copied, groups cloned, attrs
cloned and extended. -/
def derivedAttrsCfg (c : HandlerCfg) (as : List SAttr) : HandlerCfg :=
  { colorEnabled := c.colorEnabled, formatterStr := c.formatterStr,
    attrsIndex := c.attrsIndex, groups := c.groups, attrs := c.attrs ++ as,
    optsLevel := c.optsLevel, addSource := c.addSource, rep := c.rep }

/-- The snapshot WithGroup builds: every field copied, attrs cloned, groups
cloned and extended by the new name. -/
def derivedGroupCfg (c : HandlerCfg) (name : GoStr) : HandlerCfg :=
  { colorEnabled := c.colorEnabled, formatterStr := c.formatterStr,
    attrsIndex := c.attrsIndex, groups := c.groups ++ [name], attrs := c.attrs,
    optsLevel := c.optsLevel, addSource := c.addSource, rep := c.rep }

/-- customHandler.WithAttrs on the instance `hid`: the same instance for an
empty attribute list, otherwise a brand-new instance holding the derived
snapshot; no existing instance is written to. -/
def withAttrsOp (st : HStore) (hid : Nat) (as : List SAttr) : HStore × Nat :=
  if as.length = 0 then (st, hid)
  else
    match st.configs[hid]? with
    | none => (st, hid)
    | some c => (⟨st.configs ++ [derivedAttrsCfg c as]⟩, st.configs.length)

/-- customHandler.WithGroup on the instance `hid`. -/
def withGroupOp (st : HStore) (hid : Nat) (name : GoStr) : HStore × Nat :=
  if name = [] then (st, hid)
  else
    match st.configs[hid]? with
    | none => (st, hid)
    | some c => (⟨st.configs ++ [derivedGroupCfg c name]⟩, st.configs.length)

/-- Element-wise derivation of the member list of a multiHandler. -/
def multiDeriveAttrs : HStore → List Nat → List SAttr → HStore × List Nat
  | st, [], _ => (st, [])
  | st, i :: rest, as =>
    let r1 := withAttrsOp st i as
    let r2 := multiDeriveAttrs r1.1 rest as
    (r2.1, r1.2 :: r2.2)

/-- multiHandler.WithAttrs: the same dispatcher for empty attrs, otherwise a
new dispatcher over the element-wise derived member list. -/
def multiWithAttrsOp (st : HStore) (mids : List Nat) (as : List SAttr) :
    HStore × List Nat :=
  if as.length = 0 then (st, mids) else multiDeriveAttrs st mids as

/-- Element-wise WithGroup over the member list. -/
def multiDeriveGroup : HStore → List Nat → GoStr → HStore × List Nat
  | st, [], _ => (st, [])
  | st, i :: rest, name =>
    let r1 := withGroupOp st i name
    let r2 := multiDeriveGroup r1.1 rest name
    (r2.1, r1.2 :: r2.2)

/-- multiHandler.WithGroup: the same dispatcher for the empty name. -/
def multiWithGroupOp (st : HStore) (mids : List Nat) (name : GoStr) :
    HStore × List Nat :=
  if name = [] then (st, mids) else multiDeriveGroup st mids name

/-- A member sink of the fan-out dispatcher, abstracted to the two
observations multiHandler.Handle makes of it: its Enabled answer per level
and the error its Handle returns per record. -/
structure MemberSink where
  enabledAt : Int → Bool
  handleRes : LogRecord → Option GoStr

/-- slog Record.Clone: a deep copy with independent attribute backing.
Records are pure values here, so the clone is the record itself; the point
of the call in Go, that one member mutating its copy cannot affect another
member, is automatic in the model. -/
def cloneRecord (r : LogRecord) : LogRecord :=
  r

/-- Join a list of strings with a separator, as errors.Join renders the
collected messages (one per line). -/
def joinWith (sep : GoStr) : List GoStr → GoStr
  | [] => []
  | [x] => x
  | x :: xs => x ++ sep ++ joinWith sep xs

/-- errors.Join over the collected errors: nil for the empty list, otherwise
one error whose text stacks every message. -/
def errorsJoinMsgs (errs : List GoStr) : Option GoStr :=
  if errs.isEmpty then none else some (joinWith ['\n'] errs)

/-- The dispatch loop of multiHandler.Handle: walk the members in order,
call Handle with a record clone on every member enabled at the record's
level, and collect the non-nil errors; also records which members were
called and with what. -/
def multiHandleAux : List MemberSink → Nat → LogRecord →
    List GoStr × List (Nat × LogRecord)
  | [], _, _ => ([], [])
  | h :: t, i, r =>
    let rest := multiHandleAux t (i + 1) r
    if h.enabledAt r.level then
      match h.handleRes (cloneRecord r) with
      | some e => (e :: rest.1, (i, cloneRecord r) :: rest.2)
      | none => (rest.1, (i, cloneRecord r) :: rest.2)
    else rest

/-- multiHandler.Handle: dispatch to every enabled member, then errors.Join
the collected failures. -/
def multiHandle (hs : List MemberSink) (r : LogRecord) :
    Option GoStr × List (Nat × LogRecord) :=
  let res := multiHandleAux hs 0 r
  (errorsJoinMsgs res.1, res.2)

-- ===== Helper lemmas about the string primitives =====

theorem replaceFuel_nil (fuel : Nat) (pat rep : GoStr) :
    replaceFuel fuel [] pat rep = [] := by
  cases fuel <;> rfl

/-- Any fuel at least the length of the scanned string gives the same result. -/
theorem replaceFuel_fuel_irrel (pat rep : GoStr) :
    ∀ (f : Nat) (g : Nat) (s : GoStr), s.length ≤ f → s.length ≤ g →
      replaceFuel f s pat rep = replaceFuel g s pat rep := by
  intro f
  induction f with
  | zero =>
    intro g s hf _
    have hs : s = [] := List.length_eq_zero.mp (Nat.le_zero.mp hf)
    subst hs
    simp [replaceFuel_nil]
  | succ f ih =>
    intro g s hf hg
    cases s with
    | nil => simp [replaceFuel_nil]
    | cons c t =>
      cases g with
      | zero => simp [List.length_cons] at hg
      | succ g' =>
        simp only [replaceFuel]
        by_cases hc : pat ≠ [] ∧ pat.isPrefixOf (c :: t)
        · rw [if_pos hc, if_pos hc]
          have hplen : 1 ≤ pat.length :=
            List.length_pos.mpr hc.1
          have hdl : ((c :: t).drop pat.length).length ≤ f := by
            simp only [List.length_drop, List.length_cons]
            simp only [List.length_cons] at hf
            omega
          have hdg : ((c :: t).drop pat.length).length ≤ g' := by
            simp only [List.length_drop, List.length_cons]
            simp only [List.length_cons] at hg
            omega
          rw [ih g' _ hdl hdg]
        · rw [if_neg hc, if_neg hc]
          have htl : t.length ≤ f := by
            simp only [List.length_cons] at hf; omega
          have htg : t.length ≤ g' := by
            simp only [List.length_cons] at hg; omega
          rw [ih g' t htl htg]

/-- A string with no occurrence of the pattern is returned unchanged. -/
theorem replaceFuel_of_not_occurs (pat rep : GoStr) :
    ∀ (fuel : Nat) (s : GoStr), s.length ≤ fuel → occursIn pat s = false →
      replaceFuel fuel s pat rep = s := by
  intro fuel
  induction fuel with
  | zero => intro s _ _; rfl
  | succ f ih =>
    intro s hlen hocc
    cases s with
    | nil => rfl
    | cons c t =>
      simp only [occursIn, Bool.or_eq_false_iff] at hocc
      simp only [replaceFuel]
      rw [if_neg]
      · have htl : t.length ≤ f := by
          simp only [List.length_cons] at hlen; omega
        rw [ih t htl hocc.2]
      · rintro ⟨-, hp⟩
        rw [hocc.1] at hp
        exact Bool.false_ne_true hp

theorem occursIn_append_self (pat b : GoStr) (hpat : pat ≠ []) :
    ∀ a : GoStr, occursIn pat (a ++ pat ++ b) = true := by
  intro a
  induction a with
  | nil =>
    cases pat with
    | nil => exact absurd rfl hpat
    | cons p pt =>
      simp only [List.nil_append, List.cons_append, occursIn, Bool.or_eq_true]
      exact Or.inl (List.isPrefixOf_iff_prefix.mpr
        (by simpa using List.prefix_append (p :: pt) b))
  | cons c a ih =>
    simpa only [List.cons_append, occursIn, Bool.or_eq_true] using Or.inr ih

/-- Replacing when the first occurrence of the pattern starts exactly after
the prefix `a`: the hypothesis rules out any occurrence starting inside `a`,
and the scan continues on `b` alone. -/
theorem replaceFuel_split (pat rep : GoStr) (hpat : pat ≠ []) :
    ∀ (a b : GoStr) (fuel : Nat),
      (a ++ pat ++ b).length ≤ fuel →
      (∀ n, n < a.length → pat.isPrefixOf ((a ++ pat ++ b).drop n) = false) →
      replaceFuel fuel (a ++ pat ++ b) pat rep =
        a ++ rep ++ replaceFuel b.length b pat rep := by
  intro a
  induction a with
  | nil =>
    intro b fuel hlen _
    cases fuel with
    | zero =>
      exfalso
      have hp1 : 0 < pat.length := List.length_pos.mpr hpat
      simp only [List.nil_append, List.length_append, Nat.le_zero] at hlen
      omega
    | succ f =>
      cases pat with
      | nil => exact absurd rfl hpat
      | cons p pt =>
        simp only [List.nil_append, List.cons_append, replaceFuel]
        rw [if_pos]
        · have hdrop : ((p :: (pt ++ b)).drop (p :: pt : GoStr).length) = b := by
            rw [← List.cons_append]
            exact List.drop_left (p :: pt) b
          simp only [List.append_eq]
          rw [hdrop]
          have hbf : b.length ≤ f := by
            simp only [List.nil_append, List.cons_append, List.length_cons,
              List.length_append] at hlen
            omega
          rw [replaceFuel_fuel_irrel (p :: pt) rep f b.length b hbf (Nat.le_refl _)]
        · refine ⟨List.cons_ne_nil _ _, ?_⟩
          exact List.isPrefixOf_iff_prefix.mpr
            (by simpa using List.prefix_append (p :: pt) b)
  | cons c a ih =>
    intro b fuel hlen hno
    cases fuel with
    | zero =>
      exfalso
      simp only [List.cons_append, List.length_cons, Nat.le_zero] at hlen
      omega
    | succ f =>
      have h0 : pat.isPrefixOf (c :: (a ++ pat ++ b)) = false := by
        have h := hno 0 (by simp)
        simpa using h
      simp only [List.cons_append, replaceFuel]
      rw [if_neg]
      · have hlen' : (a ++ pat ++ b).length ≤ f := by
          simp only [List.cons_append, List.length_cons] at hlen
          simpa using Nat.le_of_succ_le_succ hlen
        have hno' : ∀ n, n < a.length →
            pat.isPrefixOf ((a ++ pat ++ b).drop n) = false := by
          intro n hn
          have h := hno (n + 1) (by simp only [List.length_cons]; omega)
          simpa [List.cons_append, List.drop_succ_cons] using h
        simp only [List.append_eq]
        rw [ih b f hlen' hno']
      · rintro ⟨-, hp⟩
        simp only [List.append_eq] at hp
        rw [h0] at hp
        exact Bool.false_ne_true hp

/-- goReplaceAll on a string whose unique-first occurrence of the pattern sits
between `a` and `b`. -/
theorem goReplaceAll_split (pat rep : GoStr) (hpat : pat ≠ []) (a b : GoStr)
    (hno : ∀ n, n < a.length → pat.isPrefixOf ((a ++ pat ++ b).drop n) = false) :
    goReplaceAll (a ++ pat ++ b) pat rep = a ++ rep ++ goReplaceAll b pat rep := by
  unfold goReplaceAll
  rw [if_neg hpat, if_neg hpat]
  exact replaceFuel_split pat rep hpat a b _ (Nat.le_refl _) hno

/-- goReplaceAll leaves a pattern-free string unchanged. -/
theorem goReplaceAll_of_not_occurs (pat rep s : GoStr) (hpat : pat ≠ [])
    (hocc : occursIn pat s = false) : goReplaceAll s pat rep = s := by
  unfold goReplaceAll
  rw [if_neg hpat]
  exact replaceFuel_of_not_occurs pat rep s.length s (Nat.le_refl _) hocc

theorem digitChar_toNat (d : Nat) (hd : d < 10) :
    (digitChar d).toNat = 48 + d := by
  interval_cases d <;> rfl

theorem strToNat_append_digit (s : GoStr) (d : Nat) (hd : d < 10) :
    strToNat (s ++ [digitChar d]) = strToNat s * 10 + d := by
  unfold strToNat
  rw [List.foldl_append]
  simp [digitChar_toNat d hd]

theorem strToNat_natToStrF (f : Nat) :
    ∀ n, n ≤ f → strToNat (natToStrF f n) = n := by
  induction f with
  | zero =>
    intro n hn
    have h0 : n = 0 := Nat.le_zero.mp hn
    subst h0
    rfl
  | succ f ih =>
    intro n hn
    by_cases h10 : n < 10
    · simp only [natToStrF, if_pos h10]
      show strToNat ([] ++ [digitChar n]) = n
      rw [strToNat_append_digit [] n h10]
      simp [strToNat]
    · simp only [natToStrF, if_neg h10]
      have hmod : n % 10 < 10 := Nat.mod_lt _ (by omega)
      rw [strToNat_append_digit _ _ hmod]
      have hdiv : n / 10 ≤ f := by
        have h1 : n / 10 < n := Nat.div_lt_self (by omega) (by omega)
        omega
      rw [ih (n / 10) hdiv]
      omega

theorem strToNat_natToStr (n : Nat) : strToNat (natToStr n) = n :=
  strToNat_natToStrF n n (Nat.le_refl n)

theorem natToStr_injective : Function.Injective natToStr := by
  intro a b hab
  have ha := strToNat_natToStr a
  have hb := strToNat_natToStr b
  rw [hab] at ha
  omega

theorem natToStr_ne_nil (n : Nat) : natToStr n ≠ [] := by
  unfold natToStr
  cases n with
  | zero => simp [natToStrF]
  | succ m =>
    simp only [natToStrF]
    by_cases h : m + 1 < 10
    · simp [h]
    · simp [h]

theorem searchFresh_spec (taken : List GoStr) (mk : Nat → GoStr) :
    ∀ (fuel c : Nat), (∃ k, k < fuel ∧ mk (c + k) ∉ taken) →
      mk (searchFresh taken mk c fuel) ∉ taken ∧
      c ≤ searchFresh taken mk c fuel ∧
      ∀ i, c ≤ i → i < searchFresh taken mk c fuel → mk i ∈ taken := by
  intro fuel
  induction fuel with
  | zero =>
    intro c h
    obtain ⟨k, hk, -⟩ := h
    omega
  | succ f ih =>
    intro c h
    by_cases hc : mk c ∈ taken
    · simp only [searchFresh, if_pos hc]
      obtain ⟨k, hk, hfree⟩ := h
      have hk0 : k ≠ 0 := by
        rintro rfl
        simp only [Nat.add_zero] at hfree
        exact hfree hc
      have h' : ∃ k', k' < f ∧ mk (c + 1 + k') ∉ taken := by
        refine ⟨k - 1, by omega, ?_⟩
        have : c + 1 + (k - 1) = c + k := by omega
        rw [this]
        exact hfree
      obtain ⟨hfr, hle, hall⟩ := ih (c + 1) h'
      refine ⟨hfr, by omega, ?_⟩
      intro i hci hlt
      by_cases hi : i = c
      · subst hi; exact hc
      · exact hall i (by omega) hlt
    · simp only [searchFresh, if_neg hc]
      exact ⟨hc, Nat.le_refl _, fun i h1 h2 => absurd (Nat.lt_of_le_of_lt h1 h2)
        (Nat.lt_irrefl _)⟩

/-- Pigeonhole fact behind the collision loop in `rotate`: an injective
candidate family cannot have all of its first `|taken| + 1` names taken. -/
theorem exists_fresh_candidate (taken : List GoStr) (mk : Nat → GoStr)
    (hinj : Function.Injective mk) :
    ∃ k, k < taken.length + 1 ∧ mk (0 + k) ∉ taken := by
  by_contra hall
  push_neg at hall
  have hsub : (Finset.range (taken.length + 1)).image mk ⊆ taken.toFinset := by
    intro x hx
    obtain ⟨k, hk, rfl⟩ := Finset.mem_image.mp hx
    exact List.mem_toFinset.mpr (by simpa using hall k (Finset.mem_range.mp hk))
  have hcard := Finset.card_le_card hsub
  rw [Finset.card_image_of_injective _ hinj, Finset.card_range] at hcard
  have := taken.toFinset_card_le
  omega

-- ===== Helper lemmas about the directory and writer model =====

theorem fsLookup_fsSet_self (fs : DirFS) (n c : GoStr) :
    fsLookup (fsSet fs n c) n = some c := by
  induction fs with
  | nil => simp [fsSet, fsLookup]
  | cons e t ih =>
    obtain ⟨en, ec⟩ := e
    by_cases h : en = n
    · simp [fsSet, fsLookup, h]
    · simp [fsSet, fsLookup, h, ih]

theorem fsLookup_fsSet_other (fs : DirFS) (n c m : GoStr) (h : m ≠ n) :
    fsLookup (fsSet fs n c) m = fsLookup fs m := by
  induction fs with
  | nil => simp [fsSet, fsLookup, Ne.symm h]
  | cons e t ih =>
    obtain ⟨en, ec⟩ := e
    by_cases he : en = n
    · subst he
      simp [fsSet, fsLookup, Ne.symm h]
    · by_cases hm : en = m
      · simp [fsSet, fsLookup, he, hm, h]
      · simp [fsSet, fsLookup, he, hm, ih]

theorem fsLookup_fsDelete_other (fs : DirFS) (n m : GoStr) (h : m ≠ n) :
    fsLookup (fsDelete fs n) m = fsLookup fs m := by
  induction fs with
  | nil => simp [fsDelete]
  | cons e t ih =>
    obtain ⟨en, ec⟩ := e
    by_cases he : en = n
    · subst he
      simp [fsDelete, fsLookup, Ne.symm h]
    · by_cases hm : en = m
      · simp [fsDelete, fsLookup, he, hm, h]
      · simp [fsDelete, fsLookup, he, hm, ih]

theorem fsLookup_of_not_mem_names (fs : DirFS) (n : GoStr)
    (h : n ∉ fsNames fs) : fsLookup fs n = none := by
  induction fs with
  | nil => simp [fsLookup]
  | cons e t ih =>
    obtain ⟨en, ec⟩ := e
    simp only [fsNames, List.map_cons, List.mem_cons, not_or] at h
    simp [fsLookup, Ne.symm h.1, ih (by simpa [fsNames] using h.2)]

theorem fsLookup_fsDelete_self (fs : DirFS) (n : GoStr)
    (hnd : (fsNames fs).Nodup) : fsLookup (fsDelete fs n) n = none := by
  induction fs with
  | nil => simp [fsDelete, fsLookup]
  | cons e t ih =>
    obtain ⟨en, ec⟩ := e
    simp only [fsNames, List.map_cons, List.nodup_cons] at hnd
    by_cases he : en = n
    · subst he
      simp only [fsDelete, if_pos rfl]
      exact fsLookup_of_not_mem_names t en hnd.1
    · simp [fsDelete, fsLookup, he, ih hnd.2]

theorem fsLookup_mem_names (fs : DirFS) (n : GoStr) (c : GoStr)
    (h : fsLookup fs n = some c) : n ∈ fsNames fs := by
  induction fs with
  | nil => simp [fsLookup] at h
  | cons e t ih =>
    obtain ⟨en, ec⟩ := e
    simp only [fsLookup] at h
    by_cases he : en = n
    · simp [fsNames, he]
    · rw [if_neg he] at h
      simp only [fsNames, List.map_cons, List.mem_cons]
      exact Or.inr (ih h)

theorem fsNames_fsDelete_sub (fs : DirFS) (n : GoStr) :
    fsNames (fsDelete fs n) ⊆ fsNames fs := by
  induction fs with
  | nil => simp [fsDelete]
  | cons e t ih =>
    obtain ⟨en, ec⟩ := e
    by_cases he : en = n
    · simp only [fsDelete, if_pos he, fsNames, List.map_cons]
      exact fun x hx => List.mem_cons_of_mem _ hx
    · simp only [fsDelete, if_neg he, fsNames, List.map_cons]
      intro x hx
      rcases List.mem_cons.mp hx with h1 | h2
      · exact List.mem_cons.mpr (Or.inl h1)
      · exact List.mem_cons.mpr (Or.inr (ih h2))

theorem fsNames_fsDelete_nodup (fs : DirFS) (n : GoStr)
    (hnd : (fsNames fs).Nodup) : (fsNames (fsDelete fs n)).Nodup := by
  induction fs with
  | nil => simpa [fsDelete] using hnd
  | cons e t ih =>
    obtain ⟨en, ec⟩ := e
    simp only [fsNames, List.map_cons, List.nodup_cons] at hnd
    by_cases he : en = n
    · simpa [fsDelete, if_pos he, fsNames] using hnd.2
    · simp only [fsDelete, if_neg he, fsNames, List.map_cons, List.nodup_cons]
      exact ⟨fun hm => hnd.1 (fsNames_fsDelete_sub t n hm), ih hnd.2⟩

theorem fsNames_fsSet_mem (fs : DirFS) (n c m : GoStr) :
    m ∈ fsNames (fsSet fs n c) ↔ m ∈ fsNames fs ∨ m = n := by
  induction fs with
  | nil => simp [fsSet, fsNames]
  | cons e t ih =>
    obtain ⟨en, ec⟩ := e
    by_cases he : en = n
    · subst he
      simp [fsSet, fsNames]
      tauto
    · simp only [fsSet, if_neg he, fsNames, List.map_cons, List.mem_cons]
      rw [show List.map Prod.fst (fsSet t n c) = fsNames (fsSet t n c) from rfl,
        ih]
      simp [fsNames]
      tauto

theorem fsNames_fsSet_nodup (fs : DirFS) (n c : GoStr)
    (hnd : (fsNames fs).Nodup) : (fsNames (fsSet fs n c)).Nodup := by
  induction fs with
  | nil => simp [fsSet, fsNames]
  | cons e t ih =>
    obtain ⟨en, ec⟩ := e
    simp only [fsNames, List.map_cons, List.nodup_cons] at hnd
    by_cases he : en = n
    · subst he
      simpa [fsSet, fsNames] using hnd
    · simp only [fsSet, if_neg he, fsNames, List.map_cons, List.nodup_cons]
      refine ⟨fun hm => ?_, ih hnd.2⟩
      rcases (fsNames_fsSet_mem t n c en).mp hm with h1 | h2
      · exact hnd.1 h1
      · exact he h2

theorem rotCandName_zero (cfg : rotatingConfig) (t : Timestamp) :
    rotCandName cfg t 0 =
      rotBase cfg ++ ['.'] ++ formatStamp t ++ filepathExt cfg.fileName := by
  simp [rotCandName]

theorem rotCandName_pos (cfg : rotatingConfig) (t : Timestamp) (c : Nat)
    (hc : c ≠ 0) :
    rotCandName cfg t c =
      rotBase cfg ++ ['.'] ++ formatStamp t ++ ['.'] ++ natToStr c ++
        filepathExt cfg.fileName := by
  simp [rotCandName, hc]

theorem rotCandName_injective (cfg : rotatingConfig) (t : Timestamp) :
    Function.Injective (rotCandName cfg t) := by
  intro a b hab
  by_cases ha : a = 0 <;> by_cases hb : b = 0
  · rw [ha, hb]
  · exfalso
    rw [ha, rotCandName_zero, rotCandName_pos cfg t b hb] at hab
    have hlen := congrArg List.length hab
    have hnn := List.length_pos.mpr (natToStr_ne_nil b)
    simp only [List.length_append, List.length_cons, List.length_nil] at hlen
    omega
  · exfalso
    rw [hb, rotCandName_zero, rotCandName_pos cfg t a ha] at hab
    have hlen := congrArg List.length hab
    have hnn := List.length_pos.mpr (natToStr_ne_nil a)
    simp only [List.length_append, List.length_cons, List.length_nil] at hlen
    omega
  · rw [rotCandName_pos cfg t a ha, rotCandName_pos cfg t b hb] at hab
    simp only [List.append_assoc] at hab
    have h1 := List.append_cancel_left hab
    have h2 := List.append_cancel_left h1
    have h3 := List.append_cancel_left h2
    have h4 := List.append_cancel_left h3
    have h5 := List.append_cancel_right h4
    exact natToStr_injective h5

theorem rotateName_spec (cfg : rotatingConfig) (t : Timestamp)
    (names : List GoStr) :
    rotateName cfg t names ∉ names ∧
      ∀ i, i < rotateCounter cfg t names → rotCandName cfg t i ∈ names := by
  have hex := exists_fresh_candidate names (rotCandName cfg t)
    (rotCandName_injective cfg t)
  have hs := searchFresh_spec names (rotCandName cfg t) (names.length + 1) 0
    (by simpa using hex)
  exact ⟨hs.1, fun i hi => hs.2.2 i (Nat.zero_le i) hi⟩

theorem writeOp_fs_of_open (cfg : rotatingConfig) (p : GoStr) (s : WState)
    (h : s.closed = false) :
    (writeOp cfg p s).1.fs =
      fsSet s.fs cfg.fileName (((fsLookup s.fs cfg.fileName).getD []) ++ p) := by
  simp only [writeOp, h, Bool.false_eq_true, if_false]
  split
  · split
    · rfl
    · split <;> rfl
  · rfl

theorem writeOp_flags (cfg : rotatingConfig) (p : GoStr) (s : WState) :
    (writeOp cfg p s).1.closed = s.closed ∧
      (writeOp cfg p s).1.chanClosed = s.chanClosed := by
  simp only [writeOp]
  split
  · exact ⟨rfl, rfl⟩
  · split
    · split
      · exact ⟨rfl, rfl⟩
      · split <;> exact ⟨rfl, rfl⟩
    · exact ⟨rfl, rfl⟩

theorem writeOp_res_of_open (cfg : rotatingConfig) (p : GoStr) (s : WState)
    (h : s.closed = false) :
    (writeOp cfg p s).2 = (p.length, none) := by
  simp only [writeOp, h, Bool.false_eq_true, if_false]
  split
  · split
    · rfl
    · split <;> rfl
  · rfl

theorem writeOp_res_of_closed (cfg : rotatingConfig) (p : GoStr) (s : WState)
    (h : s.closed = true) :
    writeOp cfg p s = (s, 0, some wErrClosed) := by
  simp [writeOp, h]

theorem rotateOp_of_absent (cfg : rotatingConfig) (t : Timestamp) (s : WState)
    (h : fsLookup s.fs cfg.fileName = none) : rotateOp cfg t s = (s, none) := by
  simp [rotateOp, h]

theorem rotateOp_of_present (cfg : rotatingConfig) (t : Timestamp) (s : WState)
    (content : GoStr) (h : fsLookup s.fs cfg.fileName = some content) :
    rotateOp cfg t s =
      ({ s with fs := (fsSet (fsDelete s.fs cfg.fileName)
          (rotateName cfg t (fsNames s.fs)) content) }, none) := by
  simp [rotateOp, h]

theorem rotateOp_flags (cfg : rotatingConfig) (t : Timestamp) (s : WState) :
    (rotateOp cfg t s).1.closed = s.closed ∧
      (rotateOp cfg t s).1.chanClosed = s.chanClosed ∧
      (rotateOp cfg t s).1.chanFull = s.chanFull ∧
      (rotateOp cfg t s).1.panicked = s.panicked := by
  cases h : fsLookup s.fs cfg.fileName <;> simp [rotateOp, h]

theorem mrotateOp_flags (cfg : rotatingConfig) (t : Timestamp) (s : WState) :
    (mrotateOp cfg t s).1.closed = s.closed ∧
      (mrotateOp cfg t s).1.chanClosed = s.chanClosed ∧
      (mrotateOp cfg t s).1.panicked = s.panicked := by
  by_cases hf : s.chanFull
  · have hr := rotateOp_flags cfg t { s with chanFull := false }
    simp only [mrotateOp, hf, if_true]
    exact ⟨hr.1, hr.2.1, hr.2.2.2⟩
  · simp [mrotateOp, hf]

theorem closeOp_closed (s : WState) : (closeOp s).1.closed = true := by
  by_cases h : s.closed <;> simp [closeOp, h]

theorem stepW_closed_mono (cfg : rotatingConfig) (s : WState) (op : WOp)
    (h : s.closed = true) : (stepW cfg s op).1.closed = true := by
  cases op with
  | write p =>
    show (writeOp cfg p s).1.closed = true
    rw [(writeOp_flags cfg p s).1, h]
  | mrotate t =>
    show (mrotateOp cfg t s).1.closed = true
    rw [(mrotateOp_flags cfg t s).1, h]
  | closeW => exact closeOp_closed s

theorem stepW_inv (cfg : rotatingConfig) (s : WState) (op : WOp)
    (h1 : s.chanClosed = s.closed) (h2 : s.panicked = false) :
    (stepW cfg s op).1.chanClosed = (stepW cfg s op).1.closed ∧
      (stepW cfg s op).1.panicked = false := by
  cases op with
  | write p =>
    show (writeOp cfg p s).1.chanClosed = (writeOp cfg p s).1.closed ∧
      (writeOp cfg p s).1.panicked = false
    by_cases hc : s.closed
    · rw [writeOp_res_of_closed cfg p s hc]
      exact ⟨h1, h2⟩
    · have hcf : s.closed = false := by simpa using hc
      have hcc : s.chanClosed = false := by rw [h1, hcf]
      simp only [writeOp, hcf, Bool.false_eq_true, if_false, hcc]
      split
      · split <;> simp [hcf, hcc, h2]
      · simp [hcf, hcc, h2]
  | mrotate t =>
    show (mrotateOp cfg t s).1.chanClosed = (mrotateOp cfg t s).1.closed ∧
      (mrotateOp cfg t s).1.panicked = false
    have hm := mrotateOp_flags cfg t s
    rw [hm.1, hm.2.1, hm.2.2, h1, h2]
    exact ⟨rfl, rfl⟩
  | closeW =>
    show (closeOp s).1.chanClosed = (closeOp s).1.closed ∧
      (closeOp s).1.panicked = false
    by_cases hc : s.closed
    · simp [closeOp, hc, h1, h2]
    · simp [closeOp, hc, h2]

theorem runTrace_inv (cfg : rotatingConfig) :
    ∀ (ops : List WOp) (s : WState), s.chanClosed = s.closed →
      s.panicked = false →
      (runTrace cfg s ops).1.chanClosed = (runTrace cfg s ops).1.closed ∧
        (runTrace cfg s ops).1.panicked = false := by
  intro ops
  induction ops with
  | nil => intro s h1 h2; exact ⟨h1, h2⟩
  | cons op rest ih =>
    intro s h1 h2
    have hstep := stepW_inv cfg s op h1 h2
    simpa [runTrace] using ih (stepW cfg s op).1 hstep.1 hstep.2

theorem runTrace_closed_mono (cfg : rotatingConfig) :
    ∀ (ops : List WOp) (s : WState), s.closed = true →
      (runTrace cfg s ops).1.closed = true := by
  intro ops
  induction ops with
  | nil => intro s h; exact h
  | cons op rest ih =>
    intro s h
    simpa [runTrace] using ih (stepW cfg s op).1 (stepW_closed_mono cfg s op h)

theorem runTrace_append (cfg : rotatingConfig) :
    ∀ (l1 l2 : List WOp) (s : WState),
      runTrace cfg s (l1 ++ l2) =
        ((runTrace cfg (runTrace cfg s l1).1 l2).1,
          (runTrace cfg s l1).2 ++ (runTrace cfg (runTrace cfg s l1).1 l2).2) := by
  intro l1
  induction l1 with
  | nil => intro l2 s; simp [runTrace]
  | cons op rest ih =>
    intro l2 s
    simp only [List.cons_append, runTrace]
    simp only [List.append_eq]
    rw [ih l2 (stepW cfg s op).1]

theorem runTrace_res_at (cfg : rotatingConfig) :
    ∀ (ops : List WOp) (s : WState) (k : Nat) (op : WOp), ops[k]? = some op →
      (runTrace cfg s ops).2[k]? =
        some (stepW cfg (runTrace cfg s (ops.take k)).1 op).2 := by
  intro ops
  induction ops with
  | nil => intro s k op h; simp at h
  | cons op0 rest ih =>
    intro s k op h
    cases k with
    | zero =>
      simp only [List.getElem?_cons_zero, Option.some.injEq] at h
      subst h
      simp [runTrace]
    | succ k =>
      simp only [List.getElem?_cons_succ] at h
      simp only [List.take_succ_cons, runTrace]
      simpa [runTrace] using ih (stepW cfg s op0).1 k op h

theorem runTrace_closed_after_close (cfg : rotatingConfig) (ops : List WOp)
    (s : WState) (i k : Nat) (hi : ops[i]? = some WOp.closeW) (hik : i < k) :
    (runTrace cfg s (ops.take k)).1.closed = true := by
  have hsplit : ops.take k = ops.take (i + 1) ++ ((ops.drop (i + 1)).take (k - (i + 1))) := by
    rw [← List.take_add]
    congr 1
    omega
  have hstep : ops.take (i + 1) = ops.take i ++ [WOp.closeW] := by
    rw [List.take_succ, hi]
    rfl
  rw [hsplit, runTrace_append]
  apply runTrace_closed_mono
  rw [hstep, runTrace_append]
  exact closeOp_closed _

/-- Disabled rotation, one step: with maxSizeMB = 0 no operation fills the
signal channel or touches any file other than the live one. -/
theorem stepW_disabled (cfg : rotatingConfig) (s : WState) (op : WOp)
    (hmax : cfg.maxSizeMB = 0) (hcf : s.chanFull = false) :
    (stepW cfg s op).1.chanFull = false ∧
      ∀ m, m ≠ cfg.fileName →
        fsLookup (stepW cfg s op).1.fs m = fsLookup s.fs m := by
  cases op with
  | write p =>
    by_cases hc : s.closed
    · have hres := writeOp_res_of_closed cfg p s hc
      constructor
      · show (writeOp cfg p s).1.chanFull = false
        rw [hres]; exact hcf
      · intro m hm
        show fsLookup (writeOp cfg p s).1.fs m = fsLookup s.fs m
        rw [hres]
    · have hcf2 : s.closed = false := by simpa using hc
      constructor
      · show (writeOp cfg p s).1.chanFull = false
        simp only [writeOp, hcf2, Bool.false_eq_true, if_false, hmax]
        rw [if_neg (by simp)]
        exact hcf
      · intro m hm
        show fsLookup (writeOp cfg p s).1.fs m = fsLookup s.fs m
        rw [writeOp_fs_of_open cfg p s hcf2]
        exact fsLookup_fsSet_other _ _ _ _ hm
  | mrotate t =>
    have hno : mrotateOp cfg t s = (s, none) := by simp [mrotateOp, hcf]
    constructor
    · show (mrotateOp cfg t s).1.chanFull = false
      rw [hno]; exact hcf
    · intro m hm
      show fsLookup (mrotateOp cfg t s).1.fs m = fsLookup s.fs m
      rw [hno]
  | closeW =>
    by_cases hc : s.closed
    · constructor
      · show (closeOp s).1.chanFull = false
        simp [closeOp, hc, hcf]
      · intro m hm
        show fsLookup (closeOp s).1.fs m = fsLookup s.fs m
        simp [closeOp, hc]
    · constructor
      · show (closeOp s).1.chanFull = false
        simp [closeOp, hc, hcf]
      · intro m hm
        show fsLookup (closeOp s).1.fs m = fsLookup s.fs m
        simp [closeOp, hc]

/-- Disabled rotation over a whole schedule. -/
theorem runTrace_disabled (cfg : rotatingConfig) (hmax : cfg.maxSizeMB = 0) :
    ∀ (ops : List WOp) (s : WState), s.chanFull = false →
      (runTrace cfg s ops).1.chanFull = false ∧
        ∀ m, m ≠ cfg.fileName →
          fsLookup (runTrace cfg s ops).1.fs m = fsLookup s.fs m := by
  intro ops
  induction ops with
  | nil => intro s hcf; exact ⟨hcf, fun m _ => rfl⟩
  | cons op rest ih =>
    intro s hcf
    have hstep := stepW_disabled cfg s op hmax hcf
    have hrest := ih (stepW cfg s op).1 hstep.1
    constructor
    · simpa [runTrace] using hrest.1
    · intro m hm
      have h1 : fsLookup (runTrace cfg s (op :: rest)).1.fs m =
          fsLookup (stepW cfg s op).1.fs m := by
        simpa [runTrace] using hrest.2 m hm
      rw [h1]
      exact hstep.2 m hm

-- ===== Claim theorems =====

/-- C10: customHandler.Enabled answers true exactly when the record level is
at least the snapshot's threshold; the comparison is inclusive, so a record
at exactly the threshold level is enabled. -/
theorem c10_enabled_inclusive_threshold (cfg : HandlerCfg) (level : Int) :
    (handlerEnabled cfg level = true ↔ cfg.optsLevel ≤ level) ∧
      handlerEnabled cfg cfg.optsLevel = true := by
  constructor
  · simp [handlerEnabled, ge_iff_le]
  · simp [handlerEnabled]

/-- C10 witness: the default INFO threshold enables an INFO record. -/
theorem c10_enabled_inclusive_threshold_witness :
    handlerEnabled (newHandlerCfg false [] 0 false none) 0 = true :=
  (c10_enabled_inclusive_threshold (newHandlerCfg false [] 0 false none) 0).2

/-- C7: with maxSizeMB = 0 rotation is disabled: starting from a writer whose
signal channel is empty, no schedule of writes, monitor turns and closes ever
leaves a rotation request pending, and no file other than the live file is
ever created or modified, no matter how many bytes are written. -/
theorem c7_no_rotation_when_disabled (cfg : rotatingConfig) (s : WState)
    (ops : List WOp) (hmax : cfg.maxSizeMB = 0) (hcf : s.chanFull = false) :
    (runTrace cfg s ops).1.chanFull = false ∧
      ∀ m, m ≠ cfg.fileName →
        fsLookup (runTrace cfg s ops).1.fs m = fsLookup s.fs m :=
  runTrace_disabled cfg hmax ops s hcf

/-- C7 witness: two large writes with rotation disabled leave no pending
request and create no rotated file. -/
theorem c7_no_rotation_when_disabled_witness :
    (runTrace ⟨("app.log").toList, 0, 7⟩
        (newWriterState []) [WOp.write (List.replicate 4 'a'),
          WOp.mrotate ⟨2026, 10, 11, 0, 0, 0, 0⟩,
          WOp.write (List.replicate 4 'b')]).1.chanFull = false ∧
      fsLookup (runTrace ⟨("app.log").toList, 0, 7⟩
          (newWriterState []) [WOp.write (List.replicate 4 'a'),
            WOp.mrotate ⟨2026, 10, 11, 0, 0, 0, 0⟩,
            WOp.write (List.replicate 4 'b')]).1.fs
        (("app.20261011.000000.000.log").toList) = none := by
  have h := c7_no_rotation_when_disabled ⟨("app.log").toList, 0, 7⟩
    (newWriterState []) [WOp.write (List.replicate 4 'a'),
      WOp.mrotate ⟨2026, 10, 11, 0, 0, 0, 0⟩,
      WOp.write (List.replicate 4 'b')] rfl rfl
  refine ⟨h.1, ?_⟩
  rw [h.2 (("app.20261011.000000.000.log").toList) (by decide)]
  rfl

/-- C3: once close has taken effect, every later write returns zero bytes and
the "writer has been closed" error; no schedule of writes, monitor turns and
closes ever panics (no send on the closed signal channel happens); and a
write that found the writer still open completes normally, returning the full
length and no error. -/
theorem c3_write_after_close (cfg : rotatingConfig) (fs0 : DirFS)
    (ops : List WOp) (i j : Nat) (p : GoStr)
    (hi : ops[i]? = some WOp.closeW) (hj : ops[j]? = some (WOp.write p))
    (hij : i < j) :
    (runTrace cfg (newWriterState fs0) ops).2[j]? =
        some (WRes.wrote 0 (some wErrClosed)) ∧
      (runTrace cfg (newWriterState fs0) ops).1.panicked = false ∧
      ∀ (k : Nat) (q : GoStr), ops[k]? = some (WOp.write q) →
        (runTrace cfg (newWriterState fs0) (ops.take k)).1.closed = false →
        (runTrace cfg (newWriterState fs0) ops).2[k]? =
          some (WRes.wrote q.length none) := by
  refine ⟨?_, ?_, ?_⟩
  · rw [runTrace_res_at cfg ops _ j _ hj]
    have hcl : (runTrace cfg (newWriterState fs0) (ops.take j)).1.closed = true :=
      runTrace_closed_after_close cfg ops _ i j hi hij
    have hres := writeOp_res_of_closed cfg p
      (runTrace cfg (newWriterState fs0) (ops.take j)).1 hcl
    simp [stepW, hres]
  · exact (runTrace_inv cfg ops (newWriterState fs0) rfl rfl).2
  · intro k q hk hopen
    rw [runTrace_res_at cfg ops _ k _ hk]
    have hres := writeOp_res_of_open cfg q
      (runTrace cfg (newWriterState fs0) (ops.take k)).1 hopen
    simp [stepW, hres]

/-- C3 witness: close then write, on a concrete schedule. -/
theorem c3_write_after_close_witness :
    (runTrace ⟨("app.log").toList, 0, 7⟩ (newWriterState [])
        [WOp.closeW, WOp.write ['a']]).2[1]? =
      some (WRes.wrote 0 (some wErrClosed)) :=
  (c3_write_after_close ⟨("app.log").toList, 0, 7⟩ [] [WOp.closeW, WOp.write ['a']]
    0 1 ['a'] rfl rfl (by omega)).1

/-- C2: writes and rotations are steps of one mutex linearization, so for the
schedule write A, rotate, write B on an open writer, message A lands entirely
in the rotated file (appended to the prior live content) and message B
entirely in the fresh live file: nothing is merged and nothing is dropped. -/
theorem c2_no_loss_across_rotation (cfg : rotatingConfig) (s : WState)
    (A B : GoStr) (t : Timestamp)
    (hclosed : s.closed = false) (hnd : (fsNames s.fs).Nodup) :
    rotateName cfg t (fsNames (writeOp cfg A s).1.fs) ≠ cfg.fileName ∧
      fsLookup ((writeOp cfg B ((rotateOp cfg t (writeOp cfg A s).1).1)).1).fs
          (rotateName cfg t (fsNames (writeOp cfg A s).1.fs)) =
        some (((fsLookup s.fs cfg.fileName).getD []) ++ A) ∧
      fsLookup ((writeOp cfg B ((rotateOp cfg t (writeOp cfg A s).1).1)).1).fs
          cfg.fileName = some B := by
  set fn := cfg.fileName with hfn
  set c := (fsLookup s.fs fn).getD [] with hc
  have h1fs : (writeOp cfg A s).1.fs = fsSet s.fs fn (c ++ A) :=
    writeOp_fs_of_open cfg A s hclosed
  have h1closed : (writeOp cfg A s).1.closed = false := by
    rw [(writeOp_flags cfg A s).1, hclosed]
  have h1nd : (fsNames (writeOp cfg A s).1.fs).Nodup := by
    rw [h1fs]; exact fsNames_fsSet_nodup _ _ _ hnd
  have hlook1 : fsLookup (writeOp cfg A s).1.fs fn = some (c ++ A) := by
    rw [h1fs]; exact fsLookup_fsSet_self _ _ _
  set rn := rotateName cfg t (fsNames (writeOp cfg A s).1.fs) with hrn
  have hfresh : rn ∉ fsNames (writeOp cfg A s).1.fs :=
    (rotateName_spec cfg t (fsNames (writeOp cfg A s).1.fs)).1
  have hmem : fn ∈ fsNames (writeOp cfg A s).1.fs :=
    fsLookup_mem_names _ _ _ hlook1
  have hrnne : rn ≠ fn := fun he => hfresh (he ▸ hmem)
  have h2 := rotateOp_of_present cfg t (writeOp cfg A s).1 (c ++ A) hlook1
  have h2fs : (rotateOp cfg t (writeOp cfg A s).1).1.fs =
      fsSet (fsDelete (writeOp cfg A s).1.fs fn) rn (c ++ A) := by
    rw [h2]
  have h2closed : (rotateOp cfg t (writeOp cfg A s).1).1.closed = false := by
    rw [(rotateOp_flags cfg t _).1, h1closed]
  have h2rn : fsLookup (rotateOp cfg t (writeOp cfg A s).1).1.fs rn =
      some (c ++ A) := by
    rw [h2fs]; exact fsLookup_fsSet_self _ _ _
  have h2fn : fsLookup (rotateOp cfg t (writeOp cfg A s).1).1.fs fn = none := by
    rw [h2fs, fsLookup_fsSet_other _ _ _ _ hrnne.symm]
    exact fsLookup_fsDelete_self _ _ h1nd
  have h3fs : ((writeOp cfg B (rotateOp cfg t (writeOp cfg A s).1).1).1).fs =
      fsSet (rotateOp cfg t (writeOp cfg A s).1).1.fs fn B := by
    rw [writeOp_fs_of_open cfg B _ h2closed, h2fn]
    rfl
  refine ⟨hrnne, ?_, ?_⟩
  · rw [h3fs, fsLookup_fsSet_other _ _ _ _ hrnne, h2rn]
  · rw [h3fs]
    exact fsLookup_fsSet_self _ _ _

/-- C2 witness: concrete writer, write a, rotate, write b. -/
theorem c2_no_loss_across_rotation_witness :
    rotateName ⟨("app.log").toList, 1, 7⟩ ⟨2026, 10, 11, 0, 0, 0, 0⟩
        (fsNames (writeOp ⟨("app.log").toList, 1, 7⟩ ['a']
          (newWriterState [])).1.fs) ≠ ("app.log").toList ∧
      fsLookup ((writeOp ⟨("app.log").toList, 1, 7⟩ ['b']
            ((rotateOp ⟨("app.log").toList, 1, 7⟩ ⟨2026, 10, 11, 0, 0, 0, 0⟩
              (writeOp ⟨("app.log").toList, 1, 7⟩ ['a']
                (newWriterState [])).1).1)).1).fs
          (rotateName ⟨("app.log").toList, 1, 7⟩ ⟨2026, 10, 11, 0, 0, 0, 0⟩
            (fsNames (writeOp ⟨("app.log").toList, 1, 7⟩ ['a']
              (newWriterState [])).1.fs)) =
        some ((([] : GoStr)) ++ ['a']) ∧
      fsLookup ((writeOp ⟨("app.log").toList, 1, 7⟩ ['b']
            ((rotateOp ⟨("app.log").toList, 1, 7⟩ ⟨2026, 10, 11, 0, 0, 0, 0⟩
              (writeOp ⟨("app.log").toList, 1, 7⟩ ['a']
                (newWriterState [])).1).1)).1).fs
          (("app.log").toList) = some ['b'] :=
  c2_no_loss_across_rotation ⟨("app.log").toList, 1, 7⟩ (newWriterState [])
    ['a'] ['b'] ⟨2026, 10, 11, 0, 0, 0, 0⟩ rfl (by decide)

/-- C6 (amended): rotate is a successful no-op when no live file exists;
otherwise it renames the live file to base.YYYYMMDD.HHMMSS.mmm followed by
the original extension, inserting a .counter segment before the extension
and taking the least counter whose name is unused; afterwards the live path
does not exist: rotate does not reopen a fresh file (the next write recreates
it through O_CREATE), and there is no tracked size field to reset. -/
theorem c6_rotate_rename (cfg : rotatingConfig) (t : Timestamp) (s : WState)
    (hnd : (fsNames s.fs).Nodup) :
    (fsLookup s.fs cfg.fileName = none → rotateOp cfg t s = (s, none)) ∧
      ∀ content, fsLookup s.fs cfg.fileName = some content →
        (rotateOp cfg t s).2 = none ∧
        fsLookup (rotateOp cfg t s).1.fs (rotateName cfg t (fsNames s.fs)) =
          some content ∧
        fsLookup (rotateOp cfg t s).1.fs cfg.fileName = none ∧
        rotateName cfg t (fsNames s.fs) ∉ fsNames s.fs ∧
        (∀ i, i < rotateCounter cfg t (fsNames s.fs) →
          rotCandName cfg t i ∈ fsNames s.fs) ∧
        (rotateCounter cfg t (fsNames s.fs) = 0 →
          rotateName cfg t (fsNames s.fs) =
            rotBase cfg ++ ['.'] ++ formatStamp t ++ filepathExt cfg.fileName) ∧
        (rotateCounter cfg t (fsNames s.fs) ≠ 0 →
          rotateName cfg t (fsNames s.fs) =
            rotBase cfg ++ ['.'] ++ formatStamp t ++ ['.'] ++
              natToStr (rotateCounter cfg t (fsNames s.fs)) ++
              filepathExt cfg.fileName) := by
  constructor
  · exact rotateOp_of_absent cfg t s
  · intro content hlook
    have hspec := rotateName_spec cfg t (fsNames s.fs)
    have hmem : cfg.fileName ∈ fsNames s.fs := fsLookup_mem_names _ _ _ hlook
    have hrnne : rotateName cfg t (fsNames s.fs) ≠ cfg.fileName :=
      fun he => hspec.1 (he ▸ hmem)
    have h2 := rotateOp_of_present cfg t s content hlook
    refine ⟨by rw [h2], ?_, ?_, hspec.1, hspec.2, ?_, ?_⟩
    · rw [h2]
      exact fsLookup_fsSet_self _ _ _
    · rw [h2]
      show fsLookup (fsSet (fsDelete s.fs cfg.fileName)
        (rotateName cfg t (fsNames s.fs)) content) cfg.fileName = none
      rw [fsLookup_fsSet_other _ _ _ _ hrnne.symm]
      exact fsLookup_fsDelete_self _ _ hnd
    · intro h0
      rw [rotateName, h0]
      exact rotCandName_zero cfg t
    · intro h0
      rw [rotateName]
      exact rotCandName_pos cfg t _ h0

/-- C6 witness: rotating a one-file directory whose candidate name collides
once: counter 1 is chosen, the rotated content survives, the live path is
gone. -/
theorem c6_rotate_rename_witness :
    fsLookup (rotateOp ⟨("app.log").toList, 1, 7⟩ ⟨2026, 10, 11, 12, 30, 5, 7⟩
        (newWriterState [(("app.log").toList, ['a']),
          (("app.20261011.123005.007.log").toList, ['o'])])).1.fs
      (rotateName ⟨("app.log").toList, 1, 7⟩ ⟨2026, 10, 11, 12, 30, 5, 7⟩
        (fsNames [(("app.log").toList, ['a']),
          (("app.20261011.123005.007.log").toList, ['o'])])) = some ['a'] :=
  ((c6_rotate_rename ⟨("app.log").toList, 1, 7⟩ ⟨2026, 10, 11, 12, 30, 5, 7⟩
      (newWriterState [(("app.log").toList, ['a']),
        (("app.20261011.123005.007.log").toList, ['o'])])
      (by decide)).2 ['a'] (by decide)).2.1

/-- C6 counterexample: the claim also says rotate "then reopens a fresh file
at the original path and resets the tracked size to 0"; in the code the live
path simply does not exist after a successful rotate (and no size field
exists), so the original path has no file, not a fresh empty one. -/
theorem c6_rotate_rename_counterexample :
    fsLookup (rotateOp ⟨("app.log").toList, 1, 7⟩ ⟨2026, 10, 11, 12, 30, 5, 7⟩
        (newWriterState [(("app.log").toList, ['a'])])).1.fs
      (("app.log").toList) = none := by
  decide

/-- C4 (amended): an entry is a cleanup candidate exactly when it is not a
directory, its name begins with the live file's base name (extension
trimmed), and it is not the live file itself; among candidates whose stat
and delete calls succeed, exactly those with modification time before now
minus the retention period are removed, and the newer ones are retained; an
entry whose name does not begin with the base name is never touched
regardless of age.  (The stronger promise of the original claim, that a file
with a different extension is never touched, is false: a matching-prefix
file with a different extension is a candidate — see the counterexample.) -/
theorem c4_retention_decision (cfg : rotatingConfig) (now : Int) (e : DirEntry)
    (entries : List DirEntry)
    (hinfo : e.infoOk = true) (hrem : e.removeOk = true) :
    (cleanDecision cfg (cleanCutoff cfg now) e = CleanAction.removed ↔
        e.isDir = false ∧ isRotatedLog cfg e.name = true ∧
          e.modTime < now - cfg.retentionDays) ∧
      (cleanDecision cfg (cleanCutoff cfg now) e = CleanAction.retained ↔
        e.isDir = false ∧ isRotatedLog cfg e.name = true ∧
          ¬(e.modTime < now - cfg.retentionDays)) ∧
      (goStartsWith e.name (rotBase cfg) = false →
        cleanDecision cfg (cleanCutoff cfg now) e ≠ CleanAction.removed ∧
          cleanDecision cfg (cleanCutoff cfg now) e ≠ CleanAction.removeFailed) ∧
      (∀ x ∈ entries,
        cleanDecision cfg (cleanCutoff cfg now) x = CleanAction.removed →
          x.name ∈ cleanRemovedNames cfg now entries) ∧
      (∀ nm ∈ cleanRemovedNames cfg now entries, ∃ x, x ∈ entries ∧
        x.name = nm ∧
        cleanDecision cfg (cleanCutoff cfg now) x = CleanAction.removed) := by
  refine ⟨?_, ?_, ?_, ?_, ?_⟩
  · by_cases h1 : e.isDir <;> by_cases h2 : isRotatedLog cfg e.name <;>
      by_cases h3 : e.modTime < cleanCutoff cfg now <;>
      simp_all [cleanDecision, cleanCutoff, hinfo, hrem]
  · by_cases h1 : e.isDir <;> by_cases h2 : isRotatedLog cfg e.name <;>
      by_cases h3 : e.modTime < cleanCutoff cfg now <;>
      simp_all [cleanDecision, cleanCutoff, hinfo, hrem]
  · intro hns
    have hrl : isRotatedLog cfg e.name = false := by
      simp [isRotatedLog, rotBase] at hns ⊢
      simp [hns]
    by_cases h1 : e.isDir <;> simp [cleanDecision, h1, hrl]
  · intro x hx hdec
    unfold cleanRemovedNames
    exact List.mem_map.mpr ⟨x, List.mem_filter.mpr ⟨hx, by simp [hdec]⟩, rfl⟩
  · intro nm hnm
    unfold cleanRemovedNames at hnm
    obtain ⟨x, hx, hname⟩ := List.mem_map.mp hnm
    have hx2 := List.mem_filter.mp hx
    exact ⟨x, hx2.1, hname, by simpa using hx2.2⟩

/-- C4 witness: an old correctly-named rotated file is removed, a fresh one
is retained, and appears among the removed names of a concrete scan. -/
theorem c4_retention_decision_witness :
    cleanDecision ⟨("app.log").toList, 1, 7⟩
        (cleanCutoff ⟨("app.log").toList, 1, 7⟩ 0)
        ⟨("app.20250101.000000.000.log").toList, false, -100, true, true⟩ =
      CleanAction.removed :=
  (c4_retention_decision ⟨("app.log").toList, 1, 7⟩ 0
    ⟨("app.20250101.000000.000.log").toList, false, -100, true, true⟩ []
    rfl rfl).1.mpr (by decide)

/-- C4 counterexample: app.txt shares the base name "app" with the live file
app.log but has a different extension; being old, it is deleted by the
cleanup scan, refuting "files with a different base name or extension are
never touched regardless of age". -/
theorem c4_retention_decision_counterexample :
    cleanDecision ⟨("app.log").toList, 1, 7⟩
        (cleanCutoff ⟨("app.log").toList, 1, 7⟩ 0)
        ⟨("app.txt").toList, false, -100, true, true⟩ = CleanAction.removed := by
  decide

/-- C1: in rotating_writer.go, cleanOldLogs acquires the writer mutex on
entry and releases it (by defer) only on return, so the directory read, the
per-entry stat and remove calls, and every slog diagnostic record all run
while the writer's lock is held — the claim that the lock is released before
any directory I/O or diagnostic record is false on the code.  Shown on the
input of TestDeadlockInCleanOldLogs (one old rotated file, context never
cancelled): the trace events at positions 1 to 4 (ReadDir, Info, Remove, and
the closing slog.Info) all have the lock held; a default logger backed by
the same writer therefore deadlocks inside that slog.Info, which is exactly
what the repository's own deadlock tests forbid. -/
theorem c1_cleanup_holds_lock :
    cleanEvents ⟨("test.log").toList, 1, 1⟩ 0 true
        [⟨("test.log.2023-01-01").toList, false, -10, true, true⟩]
        (fun _ => false) =
      [CEvent.lockAcq, CEvent.readDirEv,
        CEvent.statEv (("test.log.2023-01-01").toList),
        CEvent.removeEv (("test.log.2023-01-01").toList),
        CEvent.diagEv msgDone, CEvent.lockRel] ∧
      lockHeldAt (cleanEvents ⟨("test.log").toList, 1, 1⟩ 0 true
        [⟨("test.log.2023-01-01").toList, false, -10, true, true⟩]
        (fun _ => false)) 1 = true ∧
      lockHeldAt (cleanEvents ⟨("test.log").toList, 1, 1⟩ 0 true
        [⟨("test.log.2023-01-01").toList, false, -10, true, true⟩]
        (fun _ => false)) 2 = true ∧
      lockHeldAt (cleanEvents ⟨("test.log").toList, 1, 1⟩ 0 true
        [⟨("test.log.2023-01-01").toList, false, -10, true, true⟩]
        (fun _ => false)) 3 = true ∧
      lockHeldAt (cleanEvents ⟨("test.log").toList, 1, 1⟩ 0 true
        [⟨("test.log.2023-01-01").toList, false, -10, true, true⟩]
        (fun _ => false)) 4 = true := by
  decide

/-- The dispatch loop, characterized: the collected errors are exactly the
failures of the enabled members in order, and the calls made are exactly the
enabled members, each receiving the record value. -/
theorem multiHandleAux_spec (r : LogRecord) :
    ∀ (hs : List MemberSink) (i : Nat),
      (multiHandleAux hs i r).1 =
        hs.filterMap
          (fun h => if h.enabledAt r.level then h.handleRes r else none) ∧
      (multiHandleAux hs i r).2 =
        ((List.enumFrom i hs).filter (fun pr => pr.2.enabledAt r.level)).map
          (fun pr => (pr.1, r)) := by
  intro hs
  induction hs with
  | nil => intro i; simp [multiHandleAux]
  | cons h t ih =>
    intro i
    have iht := ih (i + 1)
    by_cases he : h.enabledAt r.level
    · cases hr : h.handleRes r with
      | some e =>
        simp only [multiHandleAux, he, if_true, cloneRecord, hr,
          List.filterMap_cons, List.enumFrom_cons, List.filter_cons]
        simp [he, hr, iht.1, iht.2]
      | none =>
        simp only [multiHandleAux, he, if_true, cloneRecord, hr,
          List.filterMap_cons, List.enumFrom_cons, List.filter_cons]
        simp [he, hr, iht.1, iht.2]
    · have he2 : h.enabledAt r.level = false := by simpa using he
      simp only [multiHandleAux, he2, Bool.false_eq_true, if_false,
        List.filterMap_cons, List.enumFrom_cons, List.filter_cons]
      simp [he2, iht.1, iht.2]

/-- Every element of a list is a contiguous substring of the joined text. -/
theorem mem_infix_joinWith (sep : GoStr) :
    ∀ (xs : List GoStr) (m : GoStr), m ∈ xs → m <:+: joinWith sep xs := by
  intro xs
  induction xs with
  | nil => intro m hm; simp at hm
  | cons x t ih =>
    intro m hm
    cases t with
    | nil =>
      simp only [List.mem_singleton] at hm
      subst hm
      exact List.infix_refl m
    | cons y t2 =>
      rcases List.mem_cons.mp hm with h1 | h2
      · subst h1
        show m <:+: m ++ sep ++ joinWith sep (y :: t2)
        exact ⟨[], sep ++ joinWith sep (y :: t2), by simp⟩
      · have hinf := ih m h2
        obtain ⟨a, b, hab⟩ := hinf
        show m <:+: x ++ sep ++ joinWith sep (y :: t2)
        exact ⟨x ++ sep ++ a, b, by rw [← hab]; simp⟩

/-- C5: multiHandler.Handle walks all members in order, calls Handle with a
clone of the record on exactly those enabled at the record's level (every
eligible member is attempted even when an earlier one failed), returns nil
exactly when no attempted member failed, and otherwise returns the
errors.Join aggregate of the failures in order — each failing member's
message occurs verbatim (as a contiguous substring) inside it. -/
theorem c5_fanout_aggregation (hs : List MemberSink) (r : LogRecord) :
    (multiHandle hs r).2 =
        ((List.enumFrom 0 hs).filter (fun pr => pr.2.enabledAt r.level)).map
          (fun pr => (pr.1, r)) ∧
      (multiHandle hs r).1 =
        errorsJoinMsgs (hs.filterMap
          (fun h => if h.enabledAt r.level then h.handleRes r else none)) ∧
      ((multiHandle hs r).1 = none ↔
        ∀ h ∈ hs, h.enabledAt r.level = true → h.handleRes r = none) ∧
      ∀ h ∈ hs, h.enabledAt r.level = true →
        ∀ m, h.handleRes r = some m →
          ∃ agg, (multiHandle hs r).1 = some agg ∧ m <:+: agg := by
  have haux := multiHandleAux_spec r hs 0
  refine ⟨?_, ?_, ?_, ?_⟩
  · show (multiHandleAux hs 0 r).2 = _
    exact haux.2
  · show errorsJoinMsgs (multiHandleAux hs 0 r).1 = _
    rw [haux.1]
  · show errorsJoinMsgs (multiHandleAux hs 0 r).1 = none ↔ _
    rw [haux.1]
    unfold errorsJoinMsgs
    constructor
    · intro hnone h hm he
      by_cases hn : (hs.filterMap
          (fun h => if h.enabledAt r.level then h.handleRes r else none)).isEmpty
      · rw [List.isEmpty_iff] at hn
        have := (List.filterMap_eq_nil_iff.mp hn) h hm
        rw [he] at this
        simpa using this
      · rw [if_neg (by simpa using hn)] at hnone
        exact absurd hnone (by simp)
    · intro hall
      rw [if_pos]
      rw [List.isEmpty_iff, List.filterMap_eq_nil_iff]
      intro h hm
      by_cases he : h.enabledAt r.level
      · simp [he, hall h hm he]
      · simp [he]
  · intro h hm he m hres
    have hmem : m ∈ hs.filterMap
        (fun h => if h.enabledAt r.level then h.handleRes r else none) :=
      List.mem_filterMap.mpr ⟨h, hm, by simp [he, hres]⟩
    have hne : ¬(hs.filterMap
        (fun h => if h.enabledAt r.level then h.handleRes r else none)).isEmpty := by
      rw [List.isEmpty_iff]
      intro hnil
      rw [hnil] at hmem
      simp at hmem
    refine ⟨joinWith ['\n'] (hs.filterMap
      (fun h => if h.enabledAt r.level then h.handleRes r else none)), ?_, ?_⟩
    · show errorsJoinMsgs (multiHandleAux hs 0 r).1 = _
      rw [haux.1]
      unfold errorsJoinMsgs
      rw [if_neg hne]
    · exact mem_infix_joinWith ['\n'] _ m hmem

/-- C5 witness: a failing sink and a succeeding sink: both are called, the
aggregate error carries the failing sink's message. -/
theorem c5_fanout_aggregation_witness :
    (multiHandle
        [{ enabledAt := fun _ => true, handleRes := fun _ => some (("boom").toList) },
         { enabledAt := fun _ => true, handleRes := fun _ => none }]
        { timeStr := none, level := 0, message := ("m").toList, pcZero := true,
          srcFile := [], srcFn := [], srcLine := 0, attrs := [] }).1 =
        some (("boom").toList) ∧
      (multiHandle
        [{ enabledAt := fun _ => true, handleRes := fun _ => some (("boom").toList) },
         { enabledAt := fun _ => true, handleRes := fun _ => none }]
        { timeStr := none, level := 0, message := ("m").toList, pcZero := true,
          srcFile := [], srcFn := [], srcLine := 0, attrs := [] }).2 =
        [(0, { timeStr := none, level := 0, message := ("m").toList,
               pcZero := true, srcFile := [], srcFn := [], srcLine := 0,
               attrs := [] }),
         (1, { timeStr := none, level := 0, message := ("m").toList,
               pcZero := true, srcFile := [], srcFn := [], srcLine := 0,
               attrs := [] })] := by
  have h := c5_fanout_aggregation
    [{ enabledAt := fun _ => true, handleRes := fun _ => some (("boom").toList) },
     { enabledAt := fun _ => true, handleRes := fun _ => none }]
    { timeStr := none, level := 0, message := ("m").toList, pcZero := true,
      srcFile := [], srcFn := [], srcLine := 0, attrs := [] }
  refine ⟨?_, ?_⟩
  · rw [h.2.1]
    rfl
  · rw [h.1]
    rfl

/-- withAttrsOp only ever appends to the store. -/
theorem withAttrsOp_extends (st : HStore) (hid : Nat) (as : List SAttr) :
    ∃ ext, (withAttrsOp st hid as).1.configs = st.configs ++ ext := by
  unfold withAttrsOp
  by_cases h0 : as.length = 0
  · exact ⟨[], by simp [h0]⟩
  · rw [if_neg h0]
    cases hc : st.configs[hid]? with
    | none => exact ⟨[], by simp [hc]⟩
    | some c => exact ⟨[derivedAttrsCfg c as], by simp [hc]⟩

/-- withGroupOp only ever appends to the store. -/
theorem withGroupOp_extends (st : HStore) (hid : Nat) (name : GoStr) :
    ∃ ext, (withGroupOp st hid name).1.configs = st.configs ++ ext := by
  unfold withGroupOp
  by_cases h0 : name = []
  · exact ⟨[], by simp [h0]⟩
  · rw [if_neg h0]
    cases hc : st.configs[hid]? with
    | none => exact ⟨[], by simp [hc]⟩
    | some c => exact ⟨[derivedGroupCfg c name], by simp [hc]⟩

/-- The member-wise derivation of multiHandler only ever appends. -/
theorem multiDeriveAttrs_extends (as : List SAttr) :
    ∀ (mids : List Nat) (st : HStore),
      ∃ ext, (multiDeriveAttrs st mids as).1.configs = st.configs ++ ext := by
  intro mids
  induction mids with
  | nil => intro st; exact ⟨[], by simp [multiDeriveAttrs]⟩
  | cons i rest ih =>
    intro st
    obtain ⟨e1, he1⟩ := withAttrsOp_extends st i as
    obtain ⟨e2, he2⟩ := ih (withAttrsOp st i as).1
    exact ⟨e1 ++ e2, by simp [multiDeriveAttrs, he2, he1]⟩

/-- The member-wise WithGroup derivation only ever appends. -/
theorem multiDeriveGroup_extends (name : GoStr) :
    ∀ (mids : List Nat) (st : HStore),
      ∃ ext, (multiDeriveGroup st mids name).1.configs = st.configs ++ ext := by
  intro mids
  induction mids with
  | nil => intro st; exact ⟨[], by simp [multiDeriveGroup]⟩
  | cons i rest ih =>
    intro st
    obtain ⟨e1, he1⟩ := withGroupOp_extends st i name
    obtain ⟨e2, he2⟩ := ih (withGroupOp st i name).1
    exact ⟨e1 ++ e2, by simp [multiDeriveGroup, he2, he1]⟩

/-- C8: WithAttrs and WithGroup never mutate the instance they are called
on.  With empty attributes or an empty group name they return the very same
instance and leave the store untouched; otherwise they allocate a brand-new
instance (a fresh store index) holding the cloned-and-extended snapshot,
while every existing instance's snapshot — in particular the parent's — and
therefore the parent's rendered output for any subsequent record, stays
unchanged.  multiHandler's WithAttrs/WithGroup return the same dispatcher on
the empty derivation and otherwise only allocate: no existing snapshot is
written. -/
theorem c8_derivation_non_mutating (st : HStore) (hid : Nat) (as : List SAttr)
    (name : GoStr) (r : LogRecord) (mids : List Nat)
    (hhid : hid < st.configs.length) :
    ((withAttrsOp st hid as).1.configs.take st.configs.length = st.configs) ∧
      (as = [] → withAttrsOp st hid as = (st, hid)) ∧
      (as ≠ [] →
        (withAttrsOp st hid as).2 = st.configs.length ∧
        (withAttrsOp st hid as).1.configs =
          st.configs ++ [derivedAttrsCfg (st.configs.get ⟨hid, hhid⟩) as]) ∧
      ((withGroupOp st hid name).1.configs.take st.configs.length = st.configs) ∧
      (name = [] → withGroupOp st hid name = (st, hid)) ∧
      (name ≠ [] →
        (withGroupOp st hid name).2 = st.configs.length ∧
        (withGroupOp st hid name).1.configs =
          st.configs ++ [derivedGroupCfg (st.configs.get ⟨hid, hhid⟩) name]) ∧
      ((withAttrsOp st hid as).1.configs[hid]? = st.configs[hid]?) ∧
      ((withAttrsOp st hid as).1.configs[hid]?.map (fun c => handleLine c r) =
        st.configs[hid]?.map (fun c => handleLine c r)) ∧
      (as = [] → multiWithAttrsOp st mids as = (st, mids)) ∧
      (name = [] → multiWithGroupOp st mids name = (st, mids)) ∧
      ((multiWithAttrsOp st mids as).1.configs.take st.configs.length =
        st.configs) ∧
      ((multiWithGroupOp st mids name).1.configs.take st.configs.length =
        st.configs) := by
  have hsome : st.configs[hid]? = some (st.configs.get ⟨hid, hhid⟩) := by
    simp [List.getElem?_eq_getElem hhid]
  obtain ⟨ea, hea⟩ := withAttrsOp_extends st hid as
  obtain ⟨eg, heg⟩ := withGroupOp_extends st hid name
  refine ⟨?_, ?_, ?_, ?_, ?_, ?_, ?_, ?_, ?_, ?_, ?_, ?_⟩
  · rw [hea]
    exact List.take_left st.configs ea
  · intro h0
    simp [withAttrsOp, h0]
  · intro h0
    have hlen : as.length ≠ 0 := by simpa using fun h => h0 (List.length_eq_zero.mp h)
    constructor
    · simp [withAttrsOp, hlen, hsome]
    · simp [withAttrsOp, hlen, hsome]
  · rw [heg]
    exact List.take_left st.configs eg
  · intro h0
    simp [withGroupOp, h0]
  · intro h0
    constructor
    · simp [withGroupOp, h0, hsome]
    · simp [withGroupOp, h0, hsome]
  · rw [hea, List.getElem?_append, if_pos hhid]
  · rw [hea, List.getElem?_append, if_pos hhid]
  · intro h0
    simp [multiWithAttrsOp, h0]
  · intro h0
    simp [multiWithGroupOp, h0]
  · by_cases h0 : as.length = 0
    · simp [multiWithAttrsOp, h0]
    · obtain ⟨e, he⟩ := multiDeriveAttrs_extends as mids st
      rw [show (multiWithAttrsOp st mids as) = multiDeriveAttrs st mids as by
        simp [multiWithAttrsOp, h0]]
      rw [he]
      exact List.take_left st.configs e
  · by_cases h0 : name = []
    · simp [multiWithGroupOp, h0]
    · obtain ⟨e, he⟩ := multiDeriveGroup_extends name mids st
      rw [show (multiWithGroupOp st mids name) = multiDeriveGroup st mids name by
        simp [multiWithGroupOp, h0]]
      rw [he]
      exact List.take_left st.configs e

/-- C8 witness: a one-handler store, one attribute, one group name. -/
theorem c8_derivation_non_mutating_witness :
    (withAttrsOp ⟨[newHandlerCfg false [] 0 false none]⟩ 0
        [{ key := ("k").toList, val := .strV (("v").toList) }]).1.configs.take 1 =
      [newHandlerCfg false [] 0 false none] :=
  (c8_derivation_non_mutating ⟨[newHandlerCfg false [] 0 false none]⟩ 0
    [{ key := ("k").toList, val := .strV (("v").toList) }] (("g").toList)
    { timeStr := none, level := 0, message := ("m").toList, pcZero := true,
      srcFile := [], srcFn := [], srcLine := 0, attrs := [] }
    [0] (by simp)).1

/-- Collapsing a mid-template empty placeholder: when the placeholder occurs
once flanked by single spaces (no earlier occurrence of the flanked pattern,
none in the tail), the space-placeholder-space run becomes one space. -/
theorem removeEmpty_mid (ph pre post : GoStr)
    (hno : ∀ n, n < pre.length →
      (([' '] ++ ph ++ [' ']) : GoStr).isPrefixOf
        ((pre ++ ([' '] ++ ph ++ [' ']) ++ post).drop n) = false)
    (hpost : occursIn ([' '] ++ ph ++ [' ']) post = false) :
    removeEmptyPlaceholder (pre ++ [' '] ++ ph ++ [' '] ++ post) ph =
      pre ++ [' '] ++ post := by
  have hpat : (([' '] ++ ph ++ [' ']) : GoStr) ≠ [] := by simp
  have hshape : pre ++ [' '] ++ ph ++ [' '] ++ post =
      pre ++ ([' '] ++ ph ++ [' ']) ++ post := by
    simp [List.append_assoc]
  rw [hshape]
  have hocc : occursIn ([' '] ++ ph ++ [' '])
      (pre ++ ([' '] ++ ph ++ [' ']) ++ post) = true :=
    occursIn_append_self _ post hpat pre
  simp only [removeEmptyPlaceholder]
  rw [if_pos hocc]
  rw [goReplaceAll_split _ [' '] hpat pre post hno]
  rw [goReplaceAll_of_not_occurs _ [' '] post hpat hpost]

/-- Collapsing a trailing empty placeholder: a template ending in
space-placeholder loses both (no dangling separator), provided the flanked
pattern does not occur and no earlier space-placeholder occurrence exists. -/
theorem removeEmpty_trailing (ph pre : GoStr)
    (hp1 : occursIn ([' '] ++ ph ++ [' ']) (pre ++ [' '] ++ ph) = false)
    (hno : ∀ n, n < pre.length →
      (([' '] ++ ph) : GoStr).isPrefixOf
        ((pre ++ ([' '] ++ ph) ++ ([] : GoStr)).drop n) = false) :
    removeEmptyPlaceholder (pre ++ [' '] ++ ph) ph = pre := by
  have hpat : (([' '] ++ ph) : GoStr) ≠ [] := by simp
  have hshape : pre ++ [' '] ++ ph = pre ++ ([' '] ++ ph) ++ ([] : GoStr) := by
    simp [List.append_assoc]
  have hocc : occursIn ([' '] ++ ph)
      (pre ++ [' '] ++ ph) = true := by
    rw [hshape]
    exact occursIn_append_self _ [] hpat pre
  have hp1n : occursIn (' ' :: (ph ++ [' '])) (pre ++ ' ' :: ph) = false := by
    simpa using hp1
  simp only [removeEmptyPlaceholder]
  rw [if_neg (by simp [hp1n]), if_pos hocc]
  conv_lhs => rw [hshape]
  rw [goReplaceAll_split _ [] hpat pre [] hno]
  have hnil : goReplaceAll ([] : GoStr) ([' '] ++ ph) [] = [] := by
    unfold goReplaceAll
    rw [if_neg hpat]
    exact replaceFuel_nil _ _ _
  rw [hnil]
  simp

/-- Collapsing a leading empty placeholder: a template starting with
placeholder-space loses both, provided neither space-flanked pattern occurs
and the tail holds no further placeholder-space occurrence. -/
theorem removeEmpty_leading (ph post : GoStr)
    (hp1 : occursIn ([' '] ++ ph ++ [' ']) (ph ++ [' '] ++ post) = false)
    (hp2 : occursIn ([' '] ++ ph) (ph ++ [' '] ++ post) = false)
    (hpost : occursIn (ph ++ [' ']) post = false) :
    removeEmptyPlaceholder (ph ++ [' '] ++ post) ph = post := by
  have hpat : ((ph ++ [' ']) : GoStr) ≠ [] := by simp
  have hshape : ph ++ [' '] ++ post = ([] : GoStr) ++ (ph ++ [' ']) ++ post := by
    simp [List.append_assoc]
  have hocc : occursIn (ph ++ [' ']) (ph ++ [' '] ++ post) = true := by
    rw [hshape]
    exact occursIn_append_self _ post hpat []
  have hp1n : occursIn (' ' :: (ph ++ [' '])) (ph ++ ' ' :: post) = false := by
    simpa using hp1
  have hp2n : occursIn (' ' :: ph) (ph ++ ' ' :: post) = false := by
    simpa using hp2
  simp only [removeEmptyPlaceholder]
  rw [if_neg (by simp [hp1n]), if_neg (by simp [hp2n]), if_pos hocc]
  conv_lhs => rw [hshape]
  rw [goReplaceAll_split _ [] hpat [] post (by intro n hn; simp at hn)]
  rw [goReplaceAll_of_not_occurs _ [] post hpat hpost]
  simp

/-- C9 (amended): only the file and attrs placeholders collapse whitespace
when their rendered value is empty (including a value suppressed by the
ReplaceAttr hook): removeEmptyPlaceholder turns space-placeholder-space into
one space, and drops a trailing or leading placeholder together with its one
flanking space; formatLogLine routes exactly the empty file and attrs values
through it, while empty time, level and message values are substituted
unconditionally by ReplaceAll, leaving the template's adjacent whitespace in
place (see the counterexample). -/
theorem c9_empty_placeholder_collapse :
    (∀ ph pre post : GoStr,
      (∀ n, n < pre.length → (([' '] ++ ph ++ [' ']) : GoStr).isPrefixOf
        ((pre ++ ([' '] ++ ph ++ [' ']) ++ post).drop n) = false) →
      occursIn ([' '] ++ ph ++ [' ']) post = false →
      removeEmptyPlaceholder (pre ++ [' '] ++ ph ++ [' '] ++ post) ph =
        pre ++ [' '] ++ post) ∧
    (∀ ph pre : GoStr,
      occursIn ([' '] ++ ph ++ [' ']) (pre ++ [' '] ++ ph) = false →
      (∀ n, n < pre.length → (([' '] ++ ph) : GoStr).isPrefixOf
        ((pre ++ ([' '] ++ ph) ++ ([] : GoStr)).drop n) = false) →
      removeEmptyPlaceholder (pre ++ [' '] ++ ph) ph = pre) ∧
    (∀ ph post : GoStr,
      occursIn ([' '] ++ ph ++ [' ']) (ph ++ [' '] ++ post) = false →
      occursIn ([' '] ++ ph) (ph ++ [' '] ++ post) = false →
      occursIn (ph ++ [' ']) post = false →
      removeEmptyPlaceholder (ph ++ [' '] ++ post) ph = post) ∧
    (∀ (cfg : HandlerCfg) (r : LogRecord),
      builtinFileStr cfg r = [] → builtinAttrsStr cfg r = [] →
      formatLogLine cfg r =
        removeEmptyPlaceholder (removeEmptyPlaceholder
          (goReplaceAll (goReplaceAll (goReplaceAll cfg.formatterStr phTime
              (builtinTimeStr cfg r)) phLevel (builtinLevelStr cfg r))
            phMessage (builtinMsgStr cfg r)) phFile) phAttrs ++ ['\n']) := by
  refine ⟨removeEmpty_mid, removeEmpty_trailing, removeEmpty_leading, ?_⟩
  intro cfg r h1 h2
  simp [formatLogLine, h1, h2]

/-- C9 witness: an empty file placeholder between two words collapses to a
single space. -/
theorem c9_empty_placeholder_collapse_witness :
    removeEmptyPlaceholder
        (("x:").toList ++ [' '] ++ phFile ++ [' '] ++ ("y").toList) phFile =
      ("x:").toList ++ [' '] ++ ("y").toList :=
  c9_empty_placeholder_collapse.1 phFile (("x:").toList) (("y").toList)
    (by decide) (by decide)

/-- C9 counterexample: with the default template, a record with the zero
time (an empty-valued time placeholder) renders with a leading dangling
space: the whitespace adjacent to the empty time placeholder is NOT
collapsed, contradicting the claim that every empty placeholder collapses
one adjacent run of whitespace. -/
theorem c9_counterexample :
    formatLogLine (newHandlerCfg false [] 0 false none)
        { timeStr := none, level := 0, message := ("hi").toList, pcZero := true,
          srcFile := [], srcFn := [], srcLine := 0, attrs := [] } =
      (" INFO hi\n").toList ∧
    formatLogLine (newHandlerCfg false [] 0 false none)
        { timeStr := none, level := 0, message := ("hi").toList, pcZero := true,
          srcFile := [], srcFn := [], srcLine := 0, attrs := [] } ≠
      ("INFO hi\n").toList := by
  constructor
  · decide
  · decide
